import Mathlib

/-! Dashboard table search, status filter and sort (`static/js/dashboard.js`).

A shallow embedding of the three table operations of `dashboard.js`:

* the `keyup` handler that `initializeSearch` installs on `#pigSearch`,
* `sortTable(columnIndex, headerElement)`,
* `filterByStatus(status)`,

and of `formatNumber` of `main.js`, as a function of the string `num.toString()`.

The document is modelled by the part of it these functions read and write: the `th`
elements (their `sort-asc` / `sort-desc` classes and their `.sort-icon` child) and the
`tr` elements of the one `tbody` (their `id`, their child nodes and their inline
`style.display`).  The page is assumed to hold a single table with a single `tbody`,
and ids are only modelled on the rows of that `tbody`.

The JavaScript built-ins the code calls (`toLowerCase`, `trim`, `parseFloat`,
`localeCompare`) are not part of the repository; they are a parameter (`Builtins`) of
every definition, so that each theorem holds for whatever these built-ins compute.
`Builtins.ascii` is a concrete instance on which the scenarios are evaluated.
-/

namespace PigFarm

/-! ## JavaScript built-ins -/

/-- The built-ins of the JavaScript runtime that `dashboard.js` calls. `Num` is the set of
numeric values other than `NaN` (ordered by value); `parseFloat` returns `none` for `NaN`.
The two laws are facts about the real built-ins that the code relies on. -/
structure Builtins (Num : Type) where
  /-- The method `String.prototype.toLowerCase`. -/
  toLowerCase : String → String
  /-- The method `String.prototype.trim`. -/
  trim : String → String
  /-- The global `parseFloat`, with `none` standing for `NaN`. -/
  parseFloat : String → Option Num
  /-- The method `String.prototype.localeCompare`: negative, zero or positive. -/
  localeCompare : String → String → Int
  /-- Lower-casing maps the empty string, and only the empty string, to the empty string. -/
  toLowerCase_eq_empty : ∀ s, toLowerCase s = "" ↔ s = ""
  /-- A string collates equal to itself. -/
  localeCompare_self : ∀ s, localeCompare s s = 0

/-- The method `String.prototype.includes`: `search` occurs in `s` as a contiguous substring.
On well-formed strings an occurrence by UTF-16 code units is an occurrence by characters. -/
def includes (s search : String) : Bool :=
  decide (search.data <:+: s.data)

/-- The sign of `x - y` for two numbers that are not `NaN`. A comparator result is only
inspected for its sign, and `Array.prototype.sort` reads a `NaN` result (from
`Infinity - Infinity`) as `0`, so the difference is modelled by its sign. -/
def numSub {Num : Type} [LinearOrder Num] (x y : Num) : Int :=
  if x < y then -1 else if y < x then 1 else 0

/-- The method `Array.prototype.sort(compareFn)`: a stable sort (ECMAScript 2019) that puts `a`
before `b` when `compareFn(a, b) ≤ 0`. It is modelled by stable insertion sort; for a
comparator that is a consistent ordering every stable sort returns this same array. -/
def arraySort {α : Type} (compareFn : α → α → Int) (l : List α) : List α :=
  l.insertionSort (fun a b => compareFn a b ≤ 0)

/-! ## The document -/

/-- A `td` element of a table row. -/
structure Td where
  /-- The `textContent` of the cell. -/
  textContent : String
  /-- Whether the cell carries a `colspan` attribute. -/
  colspan : Bool
  /-- The `textContent` of the first descendant of class `badge`, if there is one. -/
  badge : Option String
  deriving DecidableEq, Repr

/-- A child node of a `tr` element: a text node or a `td` cell. -/
inductive TrChild where
  | text (data : String)
  | td (cell : Td)
  deriving DecidableEq, Repr

/-- A `tr` element of the `tbody`. -/
structure Tr where
  /-- The `id` attribute (the empty string when absent). -/
  id : String
  /-- The child nodes, in document order. -/
  children : List TrChild
  /-- The inline `style.display` value: the empty string (shown) or `none` (hidden). -/
  display : String
  deriving DecidableEq, Repr

/-- A `th` element. -/
structure Th where
  /-- Whether `classList` contains `sort-asc`. -/
  sortAsc : Bool
  /-- Whether `classList` contains `sort-desc`. -/
  sortDesc : Bool
  /-- The `className` of the first descendant of class `sort-icon`, if there is one. -/
  icon : Option String
  deriving DecidableEq, Repr

/-- The part of the document the table operations read and write. -/
structure Dom where
  /-- The `th` elements, in document order (`document.querySelectorAll` of `th`). -/
  headers : List Th
  /-- The `tr` elements of the `tbody`, in document order. -/
  rows : List Tr
  deriving DecidableEq, Repr

/-- The text a child node contributes to the `textContent` of its row. -/
def TrChild.textContent : TrChild → String
  | .text data => data
  | .td cell => cell.textContent

/-- The `textContent` of a row: the concatenation of the text of its children. -/
def Tr.textContent (row : Tr) : String :=
  String.join (row.children.map TrChild.textContent)

/-- The `td` cells of a row, `row.querySelectorAll` of `td`. -/
def Tr.tds (row : Tr) : List Td :=
  row.children.filterMap (fun c => match c with
    | .td cell => some cell
    | .text _ => none)

/-- Whether `row.querySelector` of `td[colspan]` finds a cell. -/
def Tr.hasColspan (row : Tr) : Bool :=
  row.tds.any (fun cell => cell.colspan)

/-- The text of `row.querySelector` of `.badge`: the first badge in the row, if any. -/
def Tr.badge (row : Tr) : Option String :=
  row.tds.findSome? (fun cell => cell.badge)

/-! ## The search handler of `initializeSearch` -/

/-- The row the search handler creates when nothing matches: `id` is `noResults` and its
markup is one `td` with a `colspan`, whose message quotes `searchValue`. The query is taken
as plain text (markup characters inside it are not interpreted). -/
def noResultsRow (searchValue : String) : Tr where
  id := "noResults"
  children :=
    [ .text "\n                    ",
      .td { textContent :=
              "\n                        \n                        No pigs found matching \""
                ++ searchValue ++ "\"\n                    "
            colspan := true
            badge := none },
      .text "\n                " ]
  display := ""

/-- The body of the `rows.forEach` callback of the search handler, for one row. -/
def searchRow {Num : Type} (env : Builtins Num) (searchValue : String) (row : Tr) : Tr :=
  if row.hasColspan then row
  else
    let text := env.toLowerCase row.textContent
    if includes text searchValue then { row with display := "" }
    else { row with display := "none" }

/-- The value of `visibleCount` after the `rows.forEach` loop of the search handler. -/
def visibleCount {Num : Type} (env : Builtins Num) (searchValue : String) (rows : List Tr) : Nat :=
  (rows.filter (fun row =>
    !row.hasColspan && includes (env.toLowerCase row.textContent) searchValue)).length

/-- Whether `document.getElementById` finds an element with id `noResults`. -/
def hasNoResults (rows : List Tr) : Bool :=
  rows.any (fun row => row.id == "noResults")

/-- The `keyup` listener of `#pigSearch`, run with the input holding `value`. -/
def pigSearchKeyup {Num : Type} (env : Builtins Num) (value : String) (d : Dom) : Dom :=
  let searchValue := env.toLowerCase value
  let rows := d.rows.map (searchRow env searchValue)
  if visibleCount env searchValue d.rows = 0 ∧ searchValue ≠ "" then
    if !hasNoResults rows then
      { d with rows := rows ++ [noResultsRow searchValue] }
    else
      { d with rows := rows }
  else
    { d with rows := rows.eraseP (fun row => row.id == "noResults") }

/-! ## `filterByStatus` -/

/-- The body of the `rows.forEach` callback of `filterByStatus`, for one row. -/
def filterRow {Num : Type} (env : Builtins Num) (status : String) (row : Tr) : Tr :=
  if status = "ALL" then { row with display := "" }
  else
    match row.badge with
    | some text =>
      if env.trim text = status then { row with display := "" }
      else { row with display := "none" }
    | none => { row with display := "none" }

/-- The function `filterByStatus(status)`. -/
def filterByStatus {Num : Type} (env : Builtins Num) (status : String) (d : Dom) : Dom :=
  { d with rows := d.rows.map (filterRow env status) }

/-! ## `sortTable` -/

/-- The sort key of a row: `row.querySelectorAll('td')[columnIndex]?.textContent.trim() || ''`. -/
def cellValue {Num : Type} (env : Builtins Num) (columnIndex : Nat) (row : Tr) : String :=
  match row.tds[columnIndex]? with
  | some cell => env.trim cell.textContent
  | none => ""

/-- The comparator that `sortTable` passes to `rows.sort`. -/
def compareRows {Num : Type} [LinearOrder Num] (env : Builtins Num) (isAscending : Bool)
    (columnIndex : Nat) (a b : Tr) : Int :=
  let aValue := cellValue env columnIndex a
  let bValue := cellValue env columnIndex b
  match env.parseFloat aValue, env.parseFloat bValue with
  | some aNum, some bNum =>
    if isAscending then numSub bNum aNum else numSub aNum bNum
  | _, _ =>
    if isAscending then env.localeCompare bValue aValue
    else env.localeCompare aValue bValue

/-- The effect of `th.classList.remove('sort-asc', 'sort-desc')` followed by the reset of the
icon, for one header. -/
def clearSort (th : Th) : Th :=
  { sortAsc := false
    sortDesc := false
    icon := th.icon.map (fun _ => "bi bi-chevron-expand sort-icon") }

/-- The effect of `headerElement.classList.add` in `sortTable`, before the icon is touched. -/
def addSortClass (isAscending : Bool) (th : Th) : Th :=
  if isAscending then { th with sortDesc := true } else { th with sortAsc := true }

/-- The icon class that `sortTable` writes on the clicked header. -/
def sortIconClass (isAscending : Bool) : String :=
  if isAscending then "bi bi-chevron-down sort-icon" else "bi bi-chevron-up sort-icon"

/-- How a call ended: it returned, or it threw a `TypeError` (a property of `null` or
`undefined` was accessed). -/
inductive Completion where
  | normal
  | typeError
  deriving DecidableEq, Repr

/-- The result of a call: how it ended and the document it left behind. -/
structure Outcome where
  completion : Completion
  dom : Dom
  deriving DecidableEq, Repr

/-- The function `sortTable(columnIndex, headerElement)`. The header is given by its position
`headerElement` among the `th` elements; a position past the end stands for `undefined`. -/
def sortTable {Num : Type} [LinearOrder Num] (env : Builtins Num) (columnIndex headerElement : Nat)
    (d : Dom) : Outcome :=
  let rows := d.rows
  if (rows.head?.map Tr.hasColspan).getD false then ⟨.normal, d⟩
  else
    match d.headers[headerElement]? with
    | none => ⟨.typeError, d⟩
    | some th =>
      let isAscending := th.sortAsc
      let cleared := d.headers.map clearSort
      let classed := cleared.modify (addSortClass isAscending) headerElement
      match th.icon with
      | none => ⟨.typeError, { d with headers := classed }⟩
      | some _ =>
        let marked := classed.modify
          (fun h => { h with icon := some (sortIconClass isAscending) }) headerElement
        ⟨.normal, { headers := marked
                    rows := arraySort (compareRows env isAscending columnIndex) rows }⟩

/-- The click listener that `initializeTableSorting` puts on every header but the last. -/
def headerClick {Num : Type} [LinearOrder Num] (env : Builtins Num) (index : Nat) (d : Dom) : Dom :=
  if index < d.headers.length - 1 then (sortTable env index index d).dom else d

/-! ## A concrete instance of the built-ins -/

/-- The characters `trim` strips: the `WhiteSpace` and `LineTerminator` code points. -/
def isWhiteSpace (c : Char) : Bool :=
  let n := c.toNat
  n = 9 || n = 10 || n = 11 || n = 12 || n = 13 || n = 32 || n = 160 || n = 5760 ||
    (8192 ≤ n && n ≤ 8202) || n = 8232 || n = 8233 || n = 8239 || n = 8287 || n = 12288 ||
    n = 65279

/-- Lower-casing of the letters `A` to `Z`; other characters are kept. -/
def asciiToLowerCase (s : String) : String :=
  ⟨s.data.map Char.toLower⟩

/-- Removal of leading and trailing white space. -/
def asciiTrim (s : String) : String :=
  ⟨((s.data.dropWhile isWhiteSpace).reverse.dropWhile isWhiteSpace).reverse⟩

/-- The value of a sequence of decimal digits. -/
def digitsValue (ds : List Char) : Nat :=
  ds.foldl (fun n c => 10 * n + (c.toNat - 48)) 0

/-- The exponent part of a decimal literal at the head of `cs`, zero when there is none. -/
def exponentPart (cs : List Char) : Int :=
  match cs with
  | c :: rest =>
    if c = 'e' ∨ c = 'E' then
      match rest with
      | '-' :: ds => -(digitsValue (ds.takeWhile Char.isDigit) : Int)
      | '+' :: ds => (digitsValue (ds.takeWhile Char.isDigit) : Int)
      | ds => (digitsValue (ds.takeWhile Char.isDigit) : Int)
    else 0
  | [] => 0

/-- The value `m * 10 ^ e` as a rational number. -/
def scaleTen (m : Int) (e : Int) : ℚ :=
  match e with
  | Int.ofNat k => ((m * 10 ^ k : Int) : ℚ)
  | Int.negSucc k => (m : ℚ) / ((10 ^ (k + 1) : Nat) : ℚ)

/-- The value of the longest prefix of `s` (after leading white space) that is a decimal
literal: an optional sign, digits with an optional fraction, an optional exponent. `none`
(for `NaN`) when there is no such prefix. The literal `Infinity` is not covered. -/
def decimalParseFloat (s : String) : Option ℚ :=
  let cs := s.data.dropWhile isWhiteSpace
  let signed : Bool × List Char :=
    match cs with
    | '-' :: rest => (true, rest)
    | '+' :: rest => (false, rest)
    | _ => (false, cs)
  let intDigits := signed.2.takeWhile Char.isDigit
  let afterInt := signed.2.dropWhile Char.isDigit
  let fracDigits :=
    match afterInt with
    | '.' :: rest => rest.takeWhile Char.isDigit
    | _ => []
  let afterFrac :=
    match afterInt with
    | '.' :: rest => rest.dropWhile Char.isDigit
    | _ => afterInt
  if intDigits = [] ∧ fracDigits = [] then none
  else
    let mantissa : Int := digitsValue (intDigits ++ fracDigits)
    let value := scaleTen mantissa (exponentPart afterFrac - fracDigits.length)
    some (if signed.1 then -value else value)

/-- Lexicographic comparison of two sequences of weights. -/
def compareWeights : List Nat → List Nat → Int
  | [], [] => 0
  | [], _ :: _ => -1
  | _ :: _, [] => 1
  | x :: xs, y :: ys => if x < y then -1 else if y < x then 1 else compareWeights xs ys

/-- A collation of ASCII letters and digits: digits before letters, letters in alphabetical
order regardless of case, and, between strings that differ in case only, lower case first. -/
def asciiLocaleCompare (a b : String) : Int :=
  let primary := compareWeights (a.data.map (fun c => c.toLower.toNat))
    (b.data.map (fun c => c.toLower.toNat))
  if primary ≠ 0 then primary
  else compareWeights (a.data.map (fun c => if c.isUpper then 1 else 0))
    (b.data.map (fun c => if c.isUpper then 1 else 0))

/-- The built-ins on ASCII text with decimal numerals, used to evaluate the scenarios. -/
def Builtins.ascii : Builtins ℚ where
  toLowerCase := asciiToLowerCase
  trim := asciiTrim
  parseFloat := decimalParseFloat
  localeCompare := asciiLocaleCompare
  toLowerCase_eq_empty := fun s => by
    rcases s with ⟨cs⟩
    cases cs <;> simp [asciiToLowerCase, String.ext_iff]
  localeCompare_self := fun s => by
    have h : ∀ l : List Nat, compareWeights l l = 0 := by
      intro l
      induction l with
      | nil => rfl
      | cons x xs ih => simp [compareWeights, ih]
    simp [asciiLocaleCompare, h]

/-! ## Derived observations -/

/-- A data row: a row in which `querySelector` of `td[colspan]` finds nothing. -/
def Tr.isData (row : Tr) : Bool :=
  !row.hasColspan

/-- A row is visible when its inline `display` is the empty string. -/
def Tr.isVisible (row : Tr) : Bool :=
  row.display == ""

/-- The search predicate: the lower-cased text of the row contains the lower-cased query. -/
def searchMatches {Num : Type} (env : Builtins Num) (q : String) (row : Tr) : Bool :=
  includes (env.toLowerCase row.textContent) (env.toLowerCase q)

/-- A row with its inline `display` set to shown or hidden. -/
def Tr.withVisible (row : Tr) (shown : Bool) : Tr :=
  { row with display := if shown then "" else "none" }

/-- The data rows of a table that do not carry the id of the placeholder row. -/
def pigRows (rows : List Tr) : List Tr :=
  rows.filter (fun row => row.isData && row.id != "noResults")

/-- The visible rows of the table, in document order. -/
def visibleRows (d : Dom) : List Tr :=
  d.rows.filter Tr.isVisible

/-- The status predicate of `filterByStatus`: the argument is `ALL`, or the row has a badge
whose trimmed text is the argument. -/
def statusMatches {Num : Type} (env : Builtins Num) (status : String) (row : Tr) : Bool :=
  status == "ALL" ||
    match row.badge with
    | some text => env.trim text == status
    | none => false

/-- A sort direction. -/
inductive Direction where
  | ascending
  | descending
  deriving DecidableEq, Repr

/-- The sort state the markers of header `k` encode: `sort-asc` stands for ascending,
`sort-desc` for descending, no marker for no sort on that column. `sortTable` reads the
`sort-asc` class first. -/
def activeSort (d : Dom) (k : Nat) : Option Direction :=
  match d.headers[k]? with
  | some th =>
    if th.sortAsc then some .ascending
    else if th.sortDesc then some .descending
    else none
  | none => none

/-- The comparator of `sortTable` for a direction: `isAscending` is false when the rows are
put in ascending order and true when they are put in descending order. -/
def comparator {Num : Type} [LinearOrder Num] (env : Builtins Num) (dir : Direction)
    (columnIndex : Nat) (a b : Tr) : Int :=
  compareRows env (dir == .descending) columnIndex a b

/-- The header set-up of `initializeTableSorting`: every header but the last gets a
`.sort-icon` child appended to its content. -/
def initializeTableSorting (d : Dom) : Dom :=
  let headers := List.zipWith
    (fun index th =>
      if index < d.headers.length - 1 then
        { th with icon := some (th.icon.getD "bi bi-chevron-expand sort-icon") }
      else th)
    (List.range d.headers.length) d.headers
  { d with headers := headers }

/-! ## Tables of the scenarios -/

/-- A plain cell. -/
def textCell (text : String) : Td :=
  { textContent := text, colspan := false, badge := none }

/-- A cell whose content is a status badge. -/
def badgeCell (text : String) : Td :=
  { textContent := text, colspan := false, badge := some text }

/-- A pig row: name, status badge and weight. -/
def pigRow (name status weight : String) : Tr :=
  { id := ""
    children := [.td (textCell name), .td (badgeCell status), .td (textCell weight)]
    display := "" }

/-- The headers of a pig table (name, status, weight, actions) after `initializeTableSorting`. -/
def pigHeaders : List Th :=
  (initializeTableSorting
    { headers := List.replicate 4 { sortAsc := false, sortDesc := false, icon := none }
      rows := [] }).headers

/-- The table whose rows have the statuses ACTIVE, SOLD, ACTIVE. -/
def statusTable : Dom :=
  { headers := pigHeaders
    rows := [pigRow "Pig1" "ACTIVE" "50", pigRow "Pig2" "SOLD" "40", pigRow "Pig3" "ACTIVE" "30"] }

/-- A table whose only row has a badge with white space around the label. -/
def paddedBadgeTable : Dom :=
  { headers := pigHeaders
    rows := [pigRow "Pig1" " ACTIVE " "50"] }

/-- A table with one ACTIVE and one SOLD pig. -/
def twoPigTable : Dom :=
  { headers := pigHeaders
    rows := [pigRow "Pig1" "ACTIVE" "50", pigRow "Pig2" "SOLD" "40"] }

/-- A row with a single plain cell. -/
def valueRow (value : String) : Tr :=
  { id := "", children := [.td (textCell value)], display := "" }

/-- The table whose one sortable column holds `10`, `9`, `abc`. -/
def mixedColumnTable : Dom :=
  { headers := pigHeaders
    rows := [valueRow "10", valueRow "9", valueRow "abc"] }

/-- The table of the combined scenario: `Pig1` ACTIVE 50, `Pig2` ACTIVE 30, `Pig3` SOLD 40. -/
def comboTable : Dom :=
  { headers := pigHeaders
    rows := [pigRow "Pig1" "ACTIVE" "50", pigRow "Pig2" "ACTIVE" "30", pigRow "Pig3" "SOLD" "40"] }

/-- The comparator of column `k` in ascending mode is a strict total order on `rows`: any two
rows are comparable, the comparison is transitive, and two rows that each compare no greater
than the other are the same row (no two distinct rows tie). -/
def StrictlyOrders {Num : Type} [LinearOrder Num] (env : Builtins Num) (k : Nat)
    (rows : List Tr) : Prop :=
  (∀ a ∈ rows, ∀ b ∈ rows, compareRows env false k a b ≤ 0 ∨ compareRows env false k b a ≤ 0)
    ∧ (∀ a ∈ rows, ∀ b ∈ rows, ∀ c ∈ rows, compareRows env false k a b ≤ 0 →
        compareRows env false k b c ≤ 0 → compareRows env false k a c ≤ 0)
    ∧ (∀ a ∈ rows, ∀ b ∈ rows, compareRows env false k a b ≤ 0 →
        compareRows env false k b a ≤ 0 → a = b)

/-- A table in which two different pigs have the same weight. -/
def tieTable : Dom :=
  { headers := pigHeaders
    rows := [pigRow "Pig1" "ACTIVE" "50", pigRow "Pig2" "SOLD" "50"] }

/-- The number of rows whose id is `noResults`. -/
def noResultsCount (rows : List Tr) : Nat :=
  (rows.filter (fun row => row.id == "noResults")).length

/-! ## Sequences of operations -/

/-- One of the three table operations: a search with the input holding `q`, a call
`filterByStatus(s)`, or a call `sortTable(k, header k)`. -/
inductive Operation where
  | search (q : String)
  | status (s : String)
  | sort (k : Nat)
  deriving DecidableEq, Repr

/-- The document after one operation. -/
def Operation.apply {Num : Type} [LinearOrder Num] (env : Builtins Num) :
    Operation → Dom → Dom
  | .search q, d => pigSearchKeyup env q d
  | .status s, d => filterByStatus env s d
  | .sort k, d => (sortTable env k k d).dom

/-- The document after a sequence of operations, applied from left to right. -/
def runOperations {Num : Type} [LinearOrder Num] (env : Builtins Num) (ops : List Operation)
    (d : Dom) : Dom :=
  ops.foldl (fun dom op => op.apply env dom) d

/-- Whether an operation is a search or a status filter. -/
def Operation.isFilter : Operation → Bool
  | .sort _ => false
  | _ => true

/-- The last search or status-filter operation of a sequence, if there is one. -/
def lastFilter (ops : List Operation) : Option Operation :=
  (ops.filter Operation.isFilter).getLast?

/-- The predicate a filter operation shows the rows by. -/
def filterPredicate {Num : Type} (env : Builtins Num) : Operation → Tr → Bool
  | .search q => searchMatches env q
  | .status s => statusMatches env s
  | .sort _ => fun _ => true

/-- The search-query slot after a sequence: the query of the last search, empty if none. -/
def currentQuery (ops : List Operation) : String :=
  ops.foldl (fun q op => match op with
    | .search q' => q'
    | _ => q) ""

/-- The status-filter slot after a sequence: the argument of the last status filter, `ALL`
if none. -/
def currentStatus (ops : List Operation) : String :=
  ops.foldl (fun s op => match op with
    | .status s' => s'
    | _ => s) "ALL"

/-- A table in which `Pig2` precedes `Pig1` and both weigh 50. -/
def sameWeightTable : Dom :=
  { headers := pigHeaders
    rows := [pigRow "Pig2" "ACTIVE" "50", pigRow "Pig1" "ACTIVE" "50"] }

/-! ## `formatNumber` (`static/js/main.js`) -/

/-- The class `\w` of the regular expression: ASCII letters, digits and the underscore. -/
def isWordChar (c : Char) : Bool :=
  c.isAlphanum || c == '_'

/-- The assertion `\B` between two neighbouring characters (`none` beyond either end of the
string): the position is not a word boundary. -/
def notWordBoundary (prev next : Option Char) : Bool :=
  (prev.map isWordChar).getD false == (next.map isWordChar).getD false

/-- The lookahead `(?=(\d{3})+(?!\d))` at the head of `cs`: a positive multiple of three
digits follows and no further digit comes after them, that is, the run of digits that starts
here has a positive length divisible by three. -/
def groupsOfThreeAhead (cs : List Char) : Bool :=
  let run := (cs.takeWhile Char.isDigit).length
  decide (0 < run) && run % 3 == 0

/-- The global replacement of every match of `\B(?=(\d{3})+(?!\d))` by a comma, with `prev`
the character before the current position. The matches are empty, so a comma is inserted at
every position where the pattern holds. -/
def insertCommas (prev : Option Char) : List Char → List Char
  | [] => []
  | c :: cs =>
    (if notWordBoundary prev (some c) && groupsOfThreeAhead (c :: cs) then [','] else [])
      ++ c :: insertCommas (some c) cs

/-- The function `formatNumber(num)`, as a function of the string `num.toString()`. -/
def formatNumber (numToString : String) : String :=
  ⟨insertCommas none numToString.data⟩

/-- The combined scenario after a search for `z`: the three pig rows, hidden, followed by the
placeholder row. Its first row is a data row. -/
def placeholderLastTable : Dom :=
  { headers := pigHeaders
    rows := comboTable.rows.map (fun row => row.withVisible false) ++ [noResultsRow "z"] }

/-! ## Lemmas on the search handler -/

theorem includes_empty (s : String) : includes s "" = true := by
  simp [includes]

theorem searchRow_id {Num : Type} (env : Builtins Num) (sv : String) (row : Tr) :
    (searchRow env sv row).id = row.id := by
  unfold searchRow; dsimp only; split_ifs <;> rfl

theorem searchRow_children {Num : Type} (env : Builtins Num) (sv : String) (row : Tr) :
    (searchRow env sv row).children = row.children := by
  unfold searchRow; dsimp only; split_ifs <;> rfl

theorem searchRow_hasColspan {Num : Type} (env : Builtins Num) (sv : String) (row : Tr) :
    (searchRow env sv row).hasColspan = row.hasColspan := by
  simp [Tr.hasColspan, Tr.tds, searchRow_children]

theorem searchRow_textContent {Num : Type} (env : Builtins Num) (sv : String) (row : Tr) :
    (searchRow env sv row).textContent = row.textContent := by
  simp [Tr.textContent, searchRow_children]

theorem searchRow_of_isData {Num : Type} (env : Builtins Num) (q : String) (row : Tr)
    (h : row.hasColspan = false) :
    searchRow env (env.toLowerCase q) row = row.withVisible (searchMatches env q row) := by
  unfold searchRow Tr.withVisible searchMatches
  simp only [h]
  split_ifs <;> simp_all

theorem noResultsRow_hasColspan (sv : String) : (noResultsRow sv).hasColspan = true := by
  simp [noResultsRow, Tr.hasColspan, Tr.tds]

theorem noResultsRow_id (sv : String) : (noResultsRow sv).id = "noResults" := rfl

/-- The three shapes the row list can have after the search handler. -/
theorem pigSearchKeyup_rows {Num : Type} (env : Builtins Num) (q : String) (d : Dom) :
    (pigSearchKeyup env q d).rows
        = d.rows.map (searchRow env (env.toLowerCase q)) ++ [noResultsRow (env.toLowerCase q)]
      ∨ (pigSearchKeyup env q d).rows = d.rows.map (searchRow env (env.toLowerCase q))
      ∨ (pigSearchKeyup env q d).rows
        = (d.rows.map (searchRow env (env.toLowerCase q))).eraseP (fun row => row.id == "noResults") := by
  unfold pigSearchKeyup
  simp only
  split_ifs <;> simp

theorem pigSearchKeyup_headers {Num : Type} (env : Builtins Num) (q : String) (d : Dom) :
    (pigSearchKeyup env q d).headers = d.headers := by
  unfold pigSearchKeyup
  simp only
  split_ifs <;> rfl

theorem filter_eraseP_of_disjoint {α : Type} (p f : α → Bool) (l : List α)
    (h : ∀ x, p x = true → f x = false) : (l.eraseP p).filter f = l.filter f := by
  induction l with
  | nil => rfl
  | cons x xs ih =>
    by_cases hp : p x = true
    · simp [List.eraseP_cons_of_pos hp, List.filter_cons, h x hp]
    · simp [List.eraseP_cons_of_neg hp, List.filter_cons, ih]

theorem pigRows_map_searchRow {Num : Type} (env : Builtins Num) (q : String) (rows : List Tr) :
    pigRows (rows.map (searchRow env (env.toLowerCase q)))
      = (pigRows rows).map (fun row => row.withVisible (searchMatches env q row)) := by
  induction rows with
  | nil => rfl
  | cons x xs ih =>
    unfold pigRows at ih ⊢
    simp only [List.map_cons, List.filter_cons, Tr.isData, searchRow_hasColspan, searchRow_id]
    split_ifs with hx
    · have hc : x.hasColspan = false := by
        cases hcs : x.hasColspan <;> simp_all
      simp only [List.map_cons, searchRow_of_isData env q x hc, Tr.isData] at ih ⊢
      rw [ih]
    · simpa only [Tr.isData] using ih

theorem pigRows_pigSearchKeyup {Num : Type} (env : Builtins Num) (q : String) (d : Dom) :
    pigRows (pigSearchKeyup env q d).rows
      = (pigRows d.rows).map (fun row => row.withVisible (searchMatches env q row)) := by
  rw [← pigRows_map_searchRow]
  rcases pigSearchKeyup_rows env q d with h | h | h <;> rw [h]
  · simp [pigRows, Tr.isData, noResultsRow_hasColspan]
  · unfold pigRows
    apply filter_eraseP_of_disjoint
    intro x hx
    simp at hx
    simp [hx]

theorem mem_pigSearchKeyup_rows {Num : Type} (env : Builtins Num) (q : String) (d : Dom) (row : Tr)
    (h : row ∈ (pigSearchKeyup env q d).rows) :
    row = noResultsRow (env.toLowerCase q)
      ∨ ∃ r ∈ d.rows, row = searchRow env (env.toLowerCase q) r := by
  rcases pigSearchKeyup_rows env q d with e | e | e <;> rw [e] at h
  · simp only [List.mem_append, List.mem_map, List.mem_singleton] at h
    rcases h with ⟨r, hr, rfl⟩ | h
    · exact Or.inr ⟨r, hr, rfl⟩
    · exact Or.inl h
  · simp only [List.mem_map] at h
    obtain ⟨r, hr, rfl⟩ := h
    exact Or.inr ⟨r, hr, rfl⟩
  · have h2 := List.mem_of_mem_eraseP h
    simp only [List.mem_map] at h2
    obtain ⟨r, hr, rfl⟩ := h2
    exact Or.inr ⟨r, hr, rfl⟩

/-! ## Search: which rows are visible -/

/-- C1: after the search handler has run with input value `q`, the data rows of the table are
the data rows it had before, in the same order, each shown or hidden according to whether its
lower-cased text contains the lower-cased `q`; so every data row then in the table is visible
if and only if it matches, and for the empty query every data row is visible. -/
theorem pigSearchKeyup_visible_iff {Num : Type} (env : Builtins Num) (q : String) (d : Dom) :
    pigRows (pigSearchKeyup env q d).rows
        = (pigRows d.rows).map (fun row => row.withVisible (searchMatches env q row))
      ∧ (∀ row ∈ (pigSearchKeyup env q d).rows, row.hasColspan = false →
          (row.display = "" ↔
            includes (env.toLowerCase row.textContent) (env.toLowerCase q) = true))
      ∧ (q = "" → ∀ row ∈ (pigSearchKeyup env q d).rows, row.hasColspan = false →
          row.display = "") := by
  have key : ∀ row ∈ (pigSearchKeyup env q d).rows, row.hasColspan = false →
      (row.display = "" ↔
        includes (env.toLowerCase row.textContent) (env.toLowerCase q) = true) := by
    intro row hrow hdata
    rcases mem_pigSearchKeyup_rows env q d row hrow with rfl | ⟨r, _, rfl⟩
    · simp [noResultsRow_hasColspan] at hdata
    · rw [searchRow_hasColspan] at hdata
      rw [searchRow_textContent, searchRow_of_isData env q r hdata]
      unfold Tr.withVisible searchMatches
      cases includes (env.toLowerCase r.textContent) (env.toLowerCase q) <;> simp
  refine ⟨pigRows_pigSearchKeyup env q d, key, ?_⟩
  intro hq row hrow hdata
  rw [key row hrow hdata, hq, (env.toLowerCase_eq_empty "").2 rfl]
  exact includes_empty _

/-! ## Lemmas on `filterByStatus` -/

theorem filterRow_eq {Num : Type} (env : Builtins Num) (s : String) (row : Tr) :
    filterRow env s row = row.withVisible (statusMatches env s row) := by
  unfold filterRow Tr.withVisible statusMatches
  by_cases hs : s = "ALL"
  · simp [hs]
  · cases hb : row.badge with
    | none => simp [hs]
    | some text => by_cases ht : env.trim text = s <;> simp [hs, ht]

theorem withVisible_children (row : Tr) (b : Bool) : (row.withVisible b).children = row.children :=
  rfl

theorem withVisible_id (row : Tr) (b : Bool) : (row.withVisible b).id = row.id := rfl

theorem withVisible_display (row : Tr) (b : Bool) :
    (row.withVisible b).display = "" ↔ b = true := by
  cases b <;> simp [Tr.withVisible]

theorem withVisible_isVisible (row : Tr) (b : Bool) : (row.withVisible b).isVisible = b := by
  cases b <;> simp [Tr.withVisible, Tr.isVisible]

theorem withVisible_withVisible (row : Tr) (a b : Bool) :
    (row.withVisible a).withVisible b = row.withVisible b := rfl

theorem withVisible_hasColspan (row : Tr) (b : Bool) :
    (row.withVisible b).hasColspan = row.hasColspan := rfl

theorem withVisible_badge (row : Tr) (b : Bool) : (row.withVisible b).badge = row.badge := rfl

theorem withVisible_textContent (row : Tr) (b : Bool) :
    (row.withVisible b).textContent = row.textContent := rfl

theorem filterByStatus_rows {Num : Type} (env : Builtins Num) (s : String) (d : Dom) :
    (filterByStatus env s d).rows
      = d.rows.map (fun row => row.withVisible (statusMatches env s row)) := by
  unfold filterByStatus
  simp only
  exact List.map_congr_left (fun row _ => filterRow_eq env s row)

theorem filter_isVisible_map_withVisible (p : Tr → Bool) (rows : List Tr) :
    (rows.map (fun row => row.withVisible (p row))).filter Tr.isVisible
      = (rows.filter p).map (fun row => row.withVisible true) := by
  induction rows with
  | nil => rfl
  | cons x xs ih =>
    simp only [List.map_cons, List.filter_cons, withVisible_isVisible]
    cases hp : p x <;> simp [ih]

theorem pigRows_map_withVisible (p : Tr → Bool) (rows : List Tr) :
    pigRows (rows.map (fun row => row.withVisible (p row)))
      = (pigRows rows).map (fun row => row.withVisible (p row)) := by
  induction rows with
  | nil => rfl
  | cons x xs ih =>
    unfold pigRows at ih ⊢
    simp only [List.map_cons, List.filter_cons, Tr.isData, withVisible_hasColspan, withVisible_id]
    split_ifs
    · simp only [List.map_cons, Tr.isData] at ih ⊢
      rw [ih]
    · simpa only [Tr.isData] using ih

/-! ## Status filter: which rows are visible -/

/-- C2 (as the claim states it, refuted): with the badge text ` ACTIVE ` (white space around
the label) the row is visible after `filterByStatus('ACTIVE')` although its badge text is not
equal to `ACTIVE`, and it is hidden after `filterByStatus(' ACTIVE ')` although its badge text
equals that argument exactly. -/
theorem filterByStatus_badge_text_not_exact :
    (filterByStatus Builtins.ascii "ACTIVE" paddedBadgeTable).rows.map
        (fun row => (row.display, row.badge)) = [("", some " ACTIVE ")]
      ∧ (filterByStatus Builtins.ascii " ACTIVE " paddedBadgeTable).rows.map
        (fun row => (row.display, row.badge)) = [("none", some " ACTIVE ")] := by
  decide

/-- C2 (amended): `filterByStatus('ALL')` makes every row visible; for `s` other than `ALL` a
row is visible after `filterByStatus(s)` if and only if it has a status badge whose trimmed text
equals `s` (case-sensitive, the whole string); the rows stay in place, so the visible rows are
the matching rows in their original relative order. On the statuses ACTIVE, SOLD, ACTIVE with
`s = 'ACTIVE'` exactly rows 1 and 3 are visible, and with `ALL` all three. -/
theorem filterByStatus_visible_iff {Num : Type} (env : Builtins Num) (s : String) (d : Dom) :
    (∀ row ∈ (filterByStatus env "ALL" d).rows, row.display = "")
      ∧ (s ≠ "ALL" → ∀ row ∈ (filterByStatus env s d).rows,
          (row.display = "" ↔ ∃ text, row.badge = some text ∧ env.trim text = s))
      ∧ (filterByStatus env s d).rows
          = d.rows.map (fun row => row.withVisible (statusMatches env s row))
      ∧ visibleRows (filterByStatus env s d)
          = (d.rows.filter (statusMatches env s)).map (fun row => row.withVisible true)
      ∧ visibleRows (filterByStatus Builtins.ascii "ACTIVE" statusTable)
          = [pigRow "Pig1" "ACTIVE" "50", pigRow "Pig3" "ACTIVE" "30"]
      ∧ visibleRows (filterByStatus Builtins.ascii "ALL" statusTable) = statusTable.rows := by
  refine ⟨?_, ?_, filterByStatus_rows env s d, ?_, by decide, by decide⟩
  · intro row hrow
    rw [filterByStatus_rows] at hrow
    simp only [List.mem_map] at hrow
    obtain ⟨r, _, rfl⟩ := hrow
    simp [statusMatches, Tr.withVisible]
  · intro hs row hrow
    rw [filterByStatus_rows] at hrow
    simp only [List.mem_map] at hrow
    obtain ⟨r, _, rfl⟩ := hrow
    rw [withVisible_display, withVisible_badge]
    unfold statusMatches
    cases hb : r.badge with
    | none => simp [hs]
    | some text => simp [hs]
  · unfold visibleRows
    rw [filterByStatus_rows]
    exact filter_isVisible_map_withVisible _ _

/-! ## Status filter and search together -/

/-- C3 (as the claim states it, refuted): on a table with an ACTIVE `Pig1` and a SOLD `Pig2`,
status filter `ACTIVE` then search `pig2` leaves exactly the SOLD row `Pig2` visible, and search
`pig2` then status filter `ACTIVE` leaves exactly `Pig1` visible, which does not match the
query: neither result is the set of rows satisfying both predicates (no row does), and the two
orders disagree. -/
theorem filter_search_order_matters :
    visibleRows (pigSearchKeyup Builtins.ascii "pig2" (filterByStatus Builtins.ascii "ACTIVE" twoPigTable))
        = [pigRow "Pig2" "SOLD" "40"]
      ∧ visibleRows (filterByStatus Builtins.ascii "ACTIVE" (pigSearchKeyup Builtins.ascii "pig2" twoPigTable))
        = [pigRow "Pig1" "ACTIVE" "50"]
      ∧ twoPigTable.rows.filter (fun row =>
          statusMatches Builtins.ascii "ACTIVE" row && searchMatches Builtins.ascii "pig2" row) = [] := by
  decide

/-- C3 (amended): each of the two operations sets the visibility of the pig rows from its own
predicate alone, so after both have been applied the pig rows that are visible are exactly those
satisfying the predicate of the operation applied last: the search predicate after
status-then-search, the status predicate after search-then-status. -/
theorem last_filter_wins {Num : Type} (env : Builtins Num) (s q : String) (d : Dom) :
    pigRows (pigSearchKeyup env q (filterByStatus env s d)).rows
        = (pigRows d.rows).map (fun row => row.withVisible (searchMatches env q row))
      ∧ pigRows (filterByStatus env s (pigSearchKeyup env q d)).rows
        = (pigRows d.rows).map (fun row => row.withVisible (statusMatches env s row)) := by
  constructor
  · rw [pigRows_pigSearchKeyup, filterByStatus_rows, pigRows_map_withVisible, List.map_map]
    rfl
  · rw [filterByStatus_rows, pigRows_map_withVisible, pigRows_pigSearchKeyup, List.map_map]
    rfl

/-! ## The comparator of `sortTable` -/

theorem compareRows_swap {Num : Type} [LinearOrder Num] (env : Builtins Num) (k : Nat) (a b : Tr) :
    compareRows env true k a b = compareRows env false k b a := by
  cases ha : env.parseFloat (cellValue env k a) <;>
    cases hb : env.parseFloat (cellValue env k b) <;> simp [compareRows, ha, hb]

/-- C4: in ascending mode the comparator of `sortTable` decides per pair: when the trimmed cell
texts of both rows parse as numbers it returns the sign of `aNum - bNum`, otherwise it returns
`aValue.localeCompare(bValue)` on the trimmed texts; in descending mode it returns the same
comparison with the two rows swapped. The column `10`, `9`, `abc` sorted ascending comes out
as `9`, `10`, `abc`. -/
theorem compareRows_per_pair {Num : Type} [LinearOrder Num] (env : Builtins Num) (k : Nat)
    (a b : Tr) :
    (∀ aNum bNum, env.parseFloat (cellValue env k a) = some aNum →
        env.parseFloat (cellValue env k b) = some bNum →
        comparator env .ascending k a b = numSub aNum bNum)
      ∧ (env.parseFloat (cellValue env k a) = none ∨ env.parseFloat (cellValue env k b) = none →
        comparator env .ascending k a b
          = env.localeCompare (cellValue env k a) (cellValue env k b))
      ∧ comparator env .descending k a b = comparator env .ascending k b a
      ∧ (sortTable Builtins.ascii 0 0 mixedColumnTable).dom.rows
          = [valueRow "9", valueRow "10", valueRow "abc"]
      ∧ activeSort (sortTable Builtins.ascii 0 0 mixedColumnTable).dom 0 = some .ascending := by
  refine ⟨?_, ?_, ?_, by decide, by decide⟩
  · intro aNum bNum ha hb
    simp [comparator, compareRows, ha, hb]
  · intro h
    rcases h with h | h
    · simp [comparator, compareRows, h]
    · cases ha : env.parseFloat (cellValue env k a) <;> simp [comparator, compareRows, h, ha]
  · exact compareRows_swap env k a b

/-! ## Lemmas on insertion sort under a relation that is an ordering of the list only -/

section SortLemmas

variable {α : Type} (r : α → α → Prop) [DecidableRel r]

theorem sorted_orderedInsert_of (a : α) (l : List α)
    (htot : ∀ b ∈ l, r a b ∨ r b a)
    (htr : ∀ b ∈ l, ∀ c ∈ l, r a b → r b c → r a c)
    (hs : l.Sorted r) : (l.orderedInsert r a).Sorted r := by
  induction l with
  | nil => simp
  | cons b l ih =>
    rw [List.orderedInsert]
    split_ifs with hab
    · refine List.sorted_cons.2 ⟨?_, hs⟩
      intro c hc
      rcases List.mem_cons.1 hc with rfl | hc
      · exact hab
      · exact htr b (List.mem_cons_self _ _) c (List.mem_cons_of_mem _ hc) hab
          (List.rel_of_sorted_cons hs c hc)
    · refine List.sorted_cons.2 ⟨?_, ?_⟩
      · intro c hc
        rcases (List.mem_orderedInsert r).1 hc with rfl | hc
        · exact (htot b (List.mem_cons_self _ _)).resolve_left hab
        · exact List.rel_of_sorted_cons hs c hc
      · exact ih (fun c hc => htot c (List.mem_cons_of_mem _ hc))
          (fun c hc e he => htr c (List.mem_cons_of_mem _ hc) e (List.mem_cons_of_mem _ he))
          hs.of_cons

theorem sorted_insertionSort_of (l : List α)
    (htot : ∀ a ∈ l, ∀ b ∈ l, r a b ∨ r b a)
    (htr : ∀ a ∈ l, ∀ b ∈ l, ∀ c ∈ l, r a b → r b c → r a c) :
    (l.insertionSort r).Sorted r := by
  induction l with
  | nil => simp
  | cons a l ih =>
    rw [List.insertionSort]
    apply sorted_orderedInsert_of
    · intro b hb
      exact htot a (List.mem_cons_self _ _) b
        (List.mem_cons_of_mem _ ((List.mem_insertionSort r).1 hb))
    · intro b hb c hc
      exact htr a (List.mem_cons_self _ _) b
        (List.mem_cons_of_mem _ ((List.mem_insertionSort r).1 hb)) c
        (List.mem_cons_of_mem _ ((List.mem_insertionSort r).1 hc))
    · exact ih (fun x hx y hy => htot x (List.mem_cons_of_mem _ hx) y (List.mem_cons_of_mem _ hy))
        (fun x hx y hy z hz =>
          htr x (List.mem_cons_of_mem _ hx) y (List.mem_cons_of_mem _ hy) z
            (List.mem_cons_of_mem _ hz))

omit [DecidableRel r] in
theorem eq_of_perm_of_sorted_of {l₁ l₂ : List α}
    (hanti : ∀ a ∈ l₁, ∀ b ∈ l₁, r a b → r b a → a = b)
    (hp : l₁.Perm l₂) (hs₁ : l₁.Sorted r) (hs₂ : l₂.Sorted r) : l₁ = l₂ := by
  induction l₁ generalizing l₂ with
  | nil => exact hp.nil_eq
  | cons a l₁ ih =>
    cases l₂ with
    | nil => exact absurd hp.symm.nil_eq (by simp)
    | cons b l₂ =>
      have hab : a = b := by
        have ha : a ∈ b :: l₂ := hp.subset (List.mem_cons_self _ _)
        have hb : b ∈ a :: l₁ := hp.symm.subset (List.mem_cons_self _ _)
        rcases List.mem_cons.1 ha with h | ha
        · exact h
        · rcases List.mem_cons.1 hb with h | hb
          · exact h.symm
          · exact hanti a (List.mem_cons_self _ _) b (List.mem_cons_of_mem _ hb)
              (List.rel_of_sorted_cons hs₁ b hb) (List.rel_of_sorted_cons hs₂ a ha)
      subst hab
      rw [ih (fun x hx y hy => hanti x (List.mem_cons_of_mem _ hx) y (List.mem_cons_of_mem _ hy))
        (List.Perm.cons_inv hp) hs₁.of_cons hs₂.of_cons]

/-- Sorting by the converse of a relation that strictly orders the list reverses the sorted
list. -/
theorem insertionSort_converse (s : α → α → Prop) [DecidableRel s] (hs : ∀ a b, s a b ↔ r b a)
    (l : List α)
    (htot : ∀ a ∈ l, ∀ b ∈ l, r a b ∨ r b a)
    (htr : ∀ a ∈ l, ∀ b ∈ l, ∀ c ∈ l, r a b → r b c → r a c)
    (hanti : ∀ a ∈ l, ∀ b ∈ l, r a b → r b a → a = b) :
    (l.insertionSort r).insertionSort s = (l.insertionSort r).reverse := by
  have hmem : ∀ x, x ∈ (l.insertionSort r).insertionSort s ↔ x ∈ l := fun x => by
    rw [List.mem_insertionSort, List.mem_insertionSort]
  have hsorted₁ : ((l.insertionSort r).insertionSort s).Sorted s := by
    apply sorted_insertionSort_of
    · intro a ha b hb
      rw [hs, hs]
      exact (htot a ((List.mem_insertionSort r).1 ha) b ((List.mem_insertionSort r).1 hb)).symm
    · intro a ha b hb c hc hab hbc
      rw [hs] at hab hbc ⊢
      exact htr c ((List.mem_insertionSort r).1 hc) b ((List.mem_insertionSort r).1 hb) a
        ((List.mem_insertionSort r).1 ha) hbc hab
  have hsorted₂ : (l.insertionSort r).reverse.Sorted s := by
    have h := sorted_insertionSort_of r l htot htr
    unfold List.Sorted at h ⊢
    rw [List.pairwise_reverse]
    exact h.imp (fun {a b} hab => (hs b a).2 hab)
  refine eq_of_perm_of_sorted_of s ?_ ?_ hsorted₁ hsorted₂
  · intro a ha b hb hab hba
    rw [hs] at hab hba
    exact hanti a ((hmem a).1 ha) b ((hmem b).1 hb) hba hab
  · exact (List.perm_insertionSort s _).trans (List.reverse_perm _).symm

end SortLemmas

/-! ## Lemmas on `sortTable` -/

/-- The header that `sortTable` leaves at the clicked position. -/
theorem markedHeader_eq (isAscending : Bool) (th : Th) :
    ({ addSortClass isAscending (clearSort th) with icon := some (sortIconClass isAscending) } : Th)
      = { sortAsc := !isAscending, sortDesc := isAscending,
          icon := some (sortIconClass isAscending) } := by
  cases isAscending <;> simp [addSortClass, clearSort]

/-- What `sortTable` does when the guard on the first row passes and the header has its icon. -/
theorem sortTable_eq {Num : Type} [LinearOrder Num] (env : Builtins Num) (k h : Nat) (d : Dom)
    (th : Th)
    (hfirst : ∀ row, d.rows.head? = some row → row.hasColspan = false)
    (hth : d.headers[h]? = some th) (hicon : th.icon.isSome = true) :
    sortTable env k h d =
      ⟨.normal,
        { headers := ((d.headers.map clearSort).modify (addSortClass th.sortAsc) h).modify
            (fun x => { x with icon := some (sortIconClass th.sortAsc) }) h
          rows := arraySort (compareRows env th.sortAsc k) d.rows }⟩ := by
  have hguard : (d.rows.head?.map Tr.hasColspan).getD false = false := by
    cases hr : d.rows.head? with
    | none => rfl
    | some row => simpa using hfirst row hr
  obtain ⟨ic, hic⟩ := Option.isSome_iff_exists.1 hicon
  unfold sortTable
  simp only [hguard, hth, hic]
  rfl

theorem sortTable_headers_getElem? {Num : Type} [LinearOrder Num] (env : Builtins Num)
    (k h : Nat) (d : Dom) (th : Th)
    (hfirst : ∀ row, d.rows.head? = some row → row.hasColspan = false)
    (hth : d.headers[h]? = some th) (hicon : th.icon.isSome = true) (i : Nat) :
    (sortTable env k h d).dom.headers[i]? =
      if i = h then
        some { sortAsc := !th.sortAsc, sortDesc := th.sortAsc,
               icon := some (sortIconClass th.sortAsc) }
      else (d.headers[i]?).map clearSort := by
  rw [sortTable_eq env k h d th hfirst hth hicon]
  simp only [List.getElem?_modify, List.getElem?_map, Option.map_eq_map]
  by_cases hi : i = h
  · subst hi
    simp only [hth, if_true, Option.map_some']
    rw [markedHeader_eq]
  · have hne : ¬ h = i := fun e => hi e.symm
    simp only [hne, hi, if_false]
    cases d.headers[i]? <;> simp

theorem sortTable_activeSort_self {Num : Type} [LinearOrder Num] (env : Builtins Num)
    (k h : Nat) (d : Dom) (th : Th)
    (hfirst : ∀ row, d.rows.head? = some row → row.hasColspan = false)
    (hth : d.headers[h]? = some th) (hicon : th.icon.isSome = true) :
    activeSort (sortTable env k h d).dom h
      = some (if th.sortAsc then Direction.descending else Direction.ascending) := by
  unfold activeSort
  rw [sortTable_headers_getElem? env k h d th hfirst hth hicon]
  cases th.sortAsc <;> simp

theorem sortTable_activeSort_other {Num : Type} [LinearOrder Num] (env : Builtins Num)
    (k h : Nat) (d : Dom) (th : Th)
    (hfirst : ∀ row, d.rows.head? = some row → row.hasColspan = false)
    (hth : d.headers[h]? = some th) (hicon : th.icon.isSome = true) (i : Nat) (hi : i ≠ h) :
    activeSort (sortTable env k h d).dom i = none := by
  unfold activeSort
  rw [sortTable_headers_getElem? env k h d th hfirst hth hicon]
  simp only [hi, if_false]
  cases d.headers[i]? <;> simp [clearSort]

theorem activeSort_eq_ascending_iff (d : Dom) (h : Nat) (th : Th) (hth : d.headers[h]? = some th) :
    activeSort d h = some .ascending ↔ th.sortAsc = true := by
  unfold activeSort
  rw [hth]
  obtain ⟨a, b, c⟩ := th
  cases a <;> cases b <;> simp

/-! ## Sort direction and markers -/

/-- One call `sortTable(k)` in a state in which the guard on the first row passes (the header
of column `k` being one that `initializeTableSorting` gave a sort icon): it sorts the rows with
the comparator of a direction `dir` and leaves header `k` marked with that direction, where
`dir` is DESCENDING if and only if column `k` was marked ASCENDING immediately before the
call, and ASCENDING in every other case; after the call the header of column `k`, and no other
header, carries a sort marker. -/
theorem sortTable_direction {Num : Type} [LinearOrder Num] (env : Builtins Num) (k : Nat)
    (d : Dom) (th : Th)
    (hfirst : ∀ row, d.rows.head? = some row → row.hasColspan = false)
    (hth : d.headers[k]? = some th) (hicon : th.icon.isSome = true) :
    ∃ dir : Direction,
      (dir = .descending ↔ activeSort d k = some .ascending)
        ∧ (dir = .ascending ↔ activeSort d k ≠ some .ascending)
        ∧ (sortTable env k k d).completion = .normal
        ∧ (sortTable env k k d).dom.rows = arraySort (comparator env dir k) d.rows
        ∧ activeSort (sortTable env k k d).dom k = some dir
        ∧ (∀ i, i ≠ k → activeSort (sortTable env k k d).dom i = none)
        ∧ (∀ i th', (sortTable env k k d).dom.headers[i]? = some th' →
            ((th'.sortAsc = true ∨ th'.sortDesc = true) ↔ i = k)) := by
  refine ⟨if th.sortAsc then .descending else .ascending, ?_, ?_, ?_, ?_,
    sortTable_activeSort_self env k k d th hfirst hth hicon,
    sortTable_activeSort_other env k k d th hfirst hth hicon, ?_⟩
  · rw [activeSort_eq_ascending_iff d k th hth]
    cases th.sortAsc <;> simp
  · rw [Ne, activeSort_eq_ascending_iff d k th hth]
    cases th.sortAsc <;> simp
  · rw [sortTable_eq env k k d th hfirst hth hicon]
  · rw [sortTable_eq env k k d th hfirst hth hicon]
    cases th.sortAsc <;> rfl
  · intro i th' hi
    rw [sortTable_headers_getElem? env k k d th hfirst hth hicon] at hi
    by_cases hik : i = k
    · simp only [hik, if_true, Option.some.injEq] at hi
      subst hi
      cases th.sortAsc <;> simp [hik]
    · simp only [hik, if_false] at hi
      cases hd : d.headers[i]? with
      | none => simp [hd] at hi
      | some x =>
        simp only [hd, Option.map_some', Option.some.injEq] at hi
        subst hi
        simp [clearSort, hik]

/-- The single call, applied: on the table of the ACTIVE, SOLD, ACTIVE scenario the first call
on the weight column sorts ascending, and a second call on the same column then sorts
descending. -/
theorem sortTable_direction_witness :
    (∀ row, statusTable.rows.head? = some row → row.hasColspan = false)
      ∧ activeSort statusTable 2 = none
      ∧ activeSort (sortTable Builtins.ascii 2 2 statusTable).dom 2 = some .ascending
      ∧ activeSort (sortTable Builtins.ascii 2 2 (sortTable Builtins.ascii 2 2 statusTable).dom).dom 2
          = some .descending
      ∧ ∃ dir : Direction,
        (dir = .descending ↔ activeSort statusTable 2 = some .ascending)
          ∧ (dir = .ascending ↔ activeSort statusTable 2 ≠ some .ascending)
          ∧ (sortTable Builtins.ascii 2 2 statusTable).completion = .normal
          ∧ (sortTable Builtins.ascii 2 2 statusTable).dom.rows
              = arraySort (comparator Builtins.ascii dir 2) statusTable.rows
          ∧ activeSort (sortTable Builtins.ascii 2 2 statusTable).dom 2 = some dir
          ∧ (∀ i, i ≠ 2 → activeSort (sortTable Builtins.ascii 2 2 statusTable).dom i = none)
          ∧ (∀ i th', (sortTable Builtins.ascii 2 2 statusTable).dom.headers[i]? = some th' →
              ((th'.sortAsc = true ∨ th'.sortDesc = true) ↔ i = 2)) :=
  ⟨by decide, by decide, by decide, by decide,
    sortTable_direction Builtins.ascii 2 statusTable
      { sortAsc := false, sortDesc := false, icon := some "bi bi-chevron-expand sort-icon" }
      (by decide) (by decide) (by decide)⟩

/-! ## A column index past the cells of the rows -/

theorem numSub_self {Num : Type} [LinearOrder Num] (x : Num) : numSub x x = 0 := by
  simp [numSub]

theorem numSub_nonpos_iff {Num : Type} [LinearOrder Num] (x y : Num) : numSub x y ≤ 0 ↔ x ≤ y := by
  unfold numSub
  split_ifs with h1 h2
  · simp [le_of_lt h1]
  · simp [h2]
  · simp [le_of_not_lt h2]

theorem cellValue_out_of_range {Num : Type} (env : Builtins Num) (k : Nat) (row : Tr)
    (h : row.tds.length ≤ k) : cellValue env k row = "" := by
  unfold cellValue
  rw [List.getElem?_eq_none h]

theorem compareRows_out_of_range {Num : Type} [LinearOrder Num] (env : Builtins Num)
    (isAscending : Bool) (k : Nat) (a b : Tr) (ha : a.tds.length ≤ k) (hb : b.tds.length ≤ k) :
    compareRows env isAscending k a b = 0 := by
  unfold compareRows
  rw [cellValue_out_of_range env k a ha, cellValue_out_of_range env k b hb]
  cases hp : env.parseFloat "" <;> cases isAscending <;>
    simp [hp, numSub_self, env.localeCompare_self]

theorem arraySort_eq_self {α : Type} (compareFn : α → α → Int) (l : List α)
    (h : ∀ a ∈ l, ∀ b ∈ l, compareFn a b ≤ 0) : arraySort compareFn l = l := by
  unfold arraySort
  apply List.Sorted.insertionSort_eq
  exact List.pairwise_of_forall_mem_list h

theorem sortTable_rows_out_of_range {Num : Type} [LinearOrder Num] (env : Builtins Num)
    (k h : Nat) (d : Dom) (hrange : ∀ row ∈ d.rows, row.tds.length ≤ k) :
    (sortTable env k h d).dom.rows = d.rows := by
  unfold sortTable
  simp only
  split_ifs
  · rfl
  · cases hh : d.headers[h]? with
    | none => rfl
    | some th =>
      cases hi : th.icon with
      | none => simp only [hi]
      | some ic =>
        simp only [hi]
        exact arraySort_eq_self _ _ (fun a ha b hb =>
          le_of_eq (compareRows_out_of_range env th.sortAsc k a b (hrange a ha) (hrange b hb)))

/-- C8 (as the claim states it, refuted): on the table of the ACTIVE, SOLD, ACTIVE scenario,
whose rows have three cells, `sortTable(7, header)` with the first header returns normally
(no error is raised) and changes the sort state: no column was marked before the call and the
first header is marked ascending after it. -/
theorem sortTable_out_of_range_not_noop :
    (∀ row ∈ statusTable.rows, row.tds.length ≤ 7)
      ∧ (sortTable Builtins.ascii 7 0 statusTable).completion = .normal
      ∧ activeSort statusTable 0 = none
      ∧ activeSort (sortTable Builtins.ascii 7 0 statusTable).dom 0 = some .ascending
      ∧ (sortTable Builtins.ascii 7 0 statusTable).dom.headers ≠ statusTable.headers := by
  decide

/-- C8 (amended): for a `columnIndex` outside the range of the cells of every row, the call
`sortTable(columnIndex, header)` returns normally and leaves the row order unchanged, but it is
not a no-op on the sort state: when the first row is a data row the header is marked with the
direction an in-range call would use (descending if it was marked ascending, ascending
otherwise) and every other header loses its marker. -/
theorem sortTable_out_of_range {Num : Type} [LinearOrder Num] (env : Builtins Num)
    (columnIndex headerElement : Nat) (d : Dom) (th : Th)
    (hrange : ∀ row ∈ d.rows, row.tds.length ≤ columnIndex)
    (hth : d.headers[headerElement]? = some th) (hicon : th.icon.isSome = true) :
    (sortTable env columnIndex headerElement d).completion = .normal
      ∧ (sortTable env columnIndex headerElement d).dom.rows = d.rows
      ∧ ((∀ row, d.rows.head? = some row → row.hasColspan = false) →
          activeSort (sortTable env columnIndex headerElement d).dom headerElement
              = some (if activeSort d headerElement = some .ascending then .descending
                  else .ascending)
            ∧ ∀ i, i ≠ headerElement →
              activeSort (sortTable env columnIndex headerElement d).dom i = none) := by
  refine ⟨?_, sortTable_rows_out_of_range env columnIndex headerElement d hrange, ?_⟩
  · obtain ⟨ic, hic⟩ := Option.isSome_iff_exists.1 hicon
    unfold sortTable
    simp only [hth, hic]
    split_ifs <;> rfl
  · intro hfirst
    refine ⟨?_, sortTable_activeSort_other env columnIndex headerElement d th hfirst hth hicon⟩
    rw [sortTable_activeSort_self env columnIndex headerElement d th hfirst hth hicon]
    have h := activeSort_eq_ascending_iff d headerElement th hth
    cases hs : th.sortAsc
    · have : activeSort d headerElement ≠ some .ascending := by
        rw [Ne, h, hs]; simp
      simp [this]
    · have : activeSort d headerElement = some .ascending := by
        rw [h, hs]
      simp [this]

/-- C8 (amended), applied to the table of the ACTIVE, SOLD, ACTIVE scenario, column index 7 and
the first header. -/
theorem sortTable_out_of_range_witness :
    (∀ row ∈ statusTable.rows, row.tds.length ≤ 7)
      ∧ (sortTable Builtins.ascii 7 0 statusTable).completion = .normal
      ∧ (sortTable Builtins.ascii 7 0 statusTable).dom.rows = statusTable.rows
      ∧ ((∀ row, statusTable.rows.head? = some row → row.hasColspan = false) →
          activeSort (sortTable Builtins.ascii 7 0 statusTable).dom 0
              = some (if activeSort statusTable 0 = some .ascending then .descending
                  else .ascending)
            ∧ ∀ i, i ≠ 0 → activeSort (sortTable Builtins.ascii 7 0 statusTable).dom i = none) :=
  ⟨by decide,
    sortTable_out_of_range Builtins.ascii 7 0 statusTable
      { sortAsc := false, sortDesc := false, icon := some "bi bi-chevron-expand sort-icon" }
      (by decide) (by decide) (by decide)⟩

/-! ## Status filter followed by a sort -/

theorem filterByStatus_headers {Num : Type} (env : Builtins Num) (s : String) (d : Dom) :
    (filterByStatus env s d).headers = d.headers := rfl

theorem cellValue_withVisible {Num : Type} (env : Builtins Num) (k : Nat) (row : Tr) (b : Bool) :
    cellValue env k (row.withVisible b) = cellValue env k row := rfl

theorem compareRows_nonpos_of_numeric {Num : Type} [LinearOrder Num] (env : Builtins Num)
    (k : Nat) (a b : Tr) (x y : Num) (ha : env.parseFloat (cellValue env k a) = some x)
    (hb : env.parseFloat (cellValue env k b) = some y) :
    compareRows env false k a b ≤ 0 ↔ x ≤ y := by
  simp [compareRows, ha, hb, numSub_nonpos_iff]

/-- Sorting ascending a list of rows whose keys all parse as numbers puts the keys in
non-decreasing numeric order. -/
theorem arraySort_numeric_sorted {Num : Type} [LinearOrder Num] (env : Builtins Num) (k : Nat)
    (rows : List Tr) (hnum : ∀ row ∈ rows, (env.parseFloat (cellValue env k row)).isSome = true) :
    (arraySort (compareRows env false k) rows).Pairwise (fun a b =>
      ∀ x y, env.parseFloat (cellValue env k a) = some x →
        env.parseFloat (cellValue env k b) = some y → x ≤ y) := by
  have hs : (arraySort (compareRows env false k) rows).Sorted
      (fun a b => compareRows env false k a b ≤ 0) := by
    unfold arraySort
    apply sorted_insertionSort_of
    · intro a ha b hb
      obtain ⟨x, hx⟩ := Option.isSome_iff_exists.1 (hnum a ha)
      obtain ⟨y, hy⟩ := Option.isSome_iff_exists.1 (hnum b hb)
      rw [compareRows_nonpos_of_numeric env k a b x y hx hy,
        compareRows_nonpos_of_numeric env k b a y x hy hx]
      exact le_total x y
    · intro a ha b hb c hc
      obtain ⟨x, hx⟩ := Option.isSome_iff_exists.1 (hnum a ha)
      obtain ⟨y, hy⟩ := Option.isSome_iff_exists.1 (hnum b hb)
      obtain ⟨z, hz⟩ := Option.isSome_iff_exists.1 (hnum c hc)
      rw [compareRows_nonpos_of_numeric env k a b x y hx hy,
        compareRows_nonpos_of_numeric env k b c y z hy hz,
        compareRows_nonpos_of_numeric env k a c x z hx hz]
      exact le_trans
  exact List.Pairwise.imp
    (fun {a b} hab x y hx hy => (compareRows_nonpos_of_numeric env k a b x y hx hy).1 hab) hs

/-- C5 (as the claim states it, refuted): for `s = 'ALL'` on the table of the combined scenario,
after `filterByStatus('ALL')` and a first `sortTable` on the weight column all three rows are
visible, although no row has the status `ALL`. -/
theorem filter_all_then_sort_shows_every_row :
    visibleRows (sortTable Builtins.ascii 2 2 (filterByStatus Builtins.ascii "ALL" comboTable)).dom
        = [pigRow "Pig2" "ACTIVE" "30", pigRow "Pig3" "SOLD" "40", pigRow "Pig1" "ACTIVE" "50"]
      ∧ comboTable.rows.map (fun row => row.badge.map Builtins.ascii.trim)
        = [some "ACTIVE", some "ACTIVE", some "SOLD"] := by
  decide

/-- C5 (amended): on a table whose first row is a data row and whose cells in column `k` all
parse as numbers, after `filterByStatus(s)` followed by a first `sortTable(k)` (header `k`
carries no `sort-asc` marker) the sort has only permuted the rows, so that the visible rows are
exactly the rows the status filter selected (the rows whose trimmed badge text equals `s`, or
every row when `s` is `ALL`), and they appear in non-decreasing numeric order of column `k`. -/
theorem filter_then_sort {Num : Type} [LinearOrder Num] (env : Builtins Num) (s : String)
    (k : Nat) (d : Dom) (th : Th)
    (hfirst : ∀ row, d.rows.head? = some row → row.hasColspan = false)
    (hnum : ∀ row ∈ d.rows, (env.parseFloat (cellValue env k row)).isSome = true)
    (hth : d.headers[k]? = some th) (hicon : th.icon.isSome = true)
    (hfresh : th.sortAsc = false) :
    (sortTable env k k (filterByStatus env s d)).completion = .normal
      ∧ (sortTable env k k (filterByStatus env s d)).dom.rows.Perm (filterByStatus env s d).rows
      ∧ (visibleRows (sortTable env k k (filterByStatus env s d)).dom).Perm
          ((d.rows.filter (statusMatches env s)).map (fun row => row.withVisible true))
      ∧ (visibleRows (sortTable env k k (filterByStatus env s d)).dom).Pairwise (fun a b =>
          ∀ x y, env.parseFloat (cellValue env k a) = some x →
            env.parseFloat (cellValue env k b) = some y → x ≤ y) := by
  have hfirst' : ∀ row, (filterByStatus env s d).rows.head? = some row →
      row.hasColspan = false := by
    intro row hrow
    rw [filterByStatus_rows, List.head?_map] at hrow
    cases hd : d.rows.head? with
    | none => simp [hd] at hrow
    | some r =>
      simp only [hd, Option.map_some', Option.some.injEq] at hrow
      subst hrow
      exact hfirst r hd
  have hnum' : ∀ row ∈ (filterByStatus env s d).rows,
      (env.parseFloat (cellValue env k row)).isSome = true := by
    intro row hrow
    rw [filterByStatus_rows] at hrow
    simp only [List.mem_map] at hrow
    obtain ⟨r, hr, rfl⟩ := hrow
    exact hnum r hr
  have hrows : (sortTable env k k (filterByStatus env s d)).dom.rows
      = arraySort (compareRows env false k) (filterByStatus env s d).rows := by
    rw [sortTable_eq env k k (filterByStatus env s d) th hfirst' hth hicon, hfresh]
  have hperm : (sortTable env k k (filterByStatus env s d)).dom.rows.Perm
      (filterByStatus env s d).rows := by
    rw [hrows]
    exact List.perm_insertionSort _ _
  refine ⟨?_, hperm, ?_, ?_⟩
  · rw [sortTable_eq env k k (filterByStatus env s d) th hfirst' hth hicon]
  · have h := hperm.filter Tr.isVisible
    have e : (filterByStatus env s d).rows.filter Tr.isVisible
        = (d.rows.filter (statusMatches env s)).map (fun row => row.withVisible true) := by
      rw [filterByStatus_rows]
      exact filter_isVisible_map_withVisible _ _
    rw [e] at h
    exact h
  · unfold visibleRows
    rw [hrows]
    exact (arraySort_numeric_sorted env k _ hnum').sublist (List.filter_sublist _)

/-- C5 (amended), applied to the combined scenario: with `s = 'ACTIVE'` and the weight column
the visible sequence is `Pig2` (30), `Pig1` (50). -/
theorem filter_then_sort_witness :
    visibleRows (sortTable Builtins.ascii 2 2 (filterByStatus Builtins.ascii "ACTIVE" comboTable)).dom
        = [pigRow "Pig2" "ACTIVE" "30", pigRow "Pig1" "ACTIVE" "50"]
      ∧ (sortTable Builtins.ascii 2 2 (filterByStatus Builtins.ascii "ACTIVE" comboTable)).completion
          = .normal
      ∧ (sortTable Builtins.ascii 2 2 (filterByStatus Builtins.ascii "ACTIVE" comboTable)).dom.rows.Perm
          (filterByStatus Builtins.ascii "ACTIVE" comboTable).rows
      ∧ (visibleRows
            (sortTable Builtins.ascii 2 2 (filterByStatus Builtins.ascii "ACTIVE" comboTable)).dom).Perm
          ((comboTable.rows.filter (statusMatches Builtins.ascii "ACTIVE")).map
            (fun row => row.withVisible true))
      ∧ (visibleRows
            (sortTable Builtins.ascii 2 2 (filterByStatus Builtins.ascii "ACTIVE" comboTable)).dom).Pairwise
          (fun a b => ∀ x y, Builtins.ascii.parseFloat (cellValue Builtins.ascii 2 a) = some x →
            Builtins.ascii.parseFloat (cellValue Builtins.ascii 2 b) = some y → x ≤ y) :=
  ⟨by decide,
    filter_then_sort Builtins.ascii "ACTIVE" 2 comboTable
      { sortAsc := false, sortDesc := false, icon := some "bi bi-chevron-expand sort-icon" }
      (by decide) (by decide) (by decide) (by decide) (by decide)⟩

/-! ## Two consecutive sorts on one column -/

theorem sortTable_rows_perm {Num : Type} [LinearOrder Num] (env : Builtins Num) (k h : Nat)
    (d : Dom) : (sortTable env k h d).dom.rows.Perm d.rows := by
  unfold sortTable
  simp only
  split_ifs
  · exact List.Perm.refl _
  · cases hh : d.headers[h]? with
    | none => exact List.Perm.refl _
    | some th =>
      cases hi : th.icon with
      | none => simp only [hi]; exact List.Perm.refl _
      | some ic => simp only [hi]; exact List.perm_insertionSort _ _

/-- The rows after two calls of `sortTable` on column `k`, in terms of the rows before. -/
theorem sortTable_twice_rows {Num : Type} [LinearOrder Num] (env : Builtins Num) (k : Nat)
    (d : Dom) (th : Th)
    (hdata : ∀ row ∈ d.rows, row.hasColspan = false)
    (hth : d.headers[k]? = some th) (hicon : th.icon.isSome = true) :
    (sortTable env k k d).dom.rows = arraySort (compareRows env th.sortAsc k) d.rows
      ∧ (sortTable env k k (sortTable env k k d).dom).dom.rows
        = arraySort (compareRows env (!th.sortAsc) k)
            (arraySort (compareRows env th.sortAsc k) d.rows) := by
  have hfirst : ∀ row, d.rows.head? = some row → row.hasColspan = false :=
    fun row hrow => hdata row (List.mem_of_mem_head? hrow)
  have h1 : (sortTable env k k d).dom.rows = arraySort (compareRows env th.sortAsc k) d.rows := by
    rw [sortTable_eq env k k d th hfirst hth hicon]
  have hfirst' : ∀ row, (sortTable env k k d).dom.rows.head? = some row →
      row.hasColspan = false :=
    fun row hrow => hdata row ((sortTable_rows_perm env k k d).subset (List.mem_of_mem_head? hrow))
  have hth' : (sortTable env k k d).dom.headers[k]?
      = some { sortAsc := !th.sortAsc, sortDesc := th.sortAsc,
               icon := some (sortIconClass th.sortAsc) } := by
    rw [sortTable_headers_getElem? env k k d th hfirst hth hicon]
    simp
  refine ⟨h1, ?_⟩
  rw [sortTable_eq env k k (sortTable env k k d).dom _ hfirst' hth' rfl, h1]

/-- C7 (as the claim states it, refuted): when two different rows hold the same weight, the
first and the second `sortTable` call on the weight column both leave them in their original
order (the sort is stable), so the second result is not the reverse of the first. -/
theorem sortTable_twice_tie_not_reversed :
    (sortTable Builtins.ascii 2 2 tieTable).dom.rows
        = [pigRow "Pig1" "ACTIVE" "50", pigRow "Pig2" "SOLD" "50"]
      ∧ (sortTable Builtins.ascii 2 2 (sortTable Builtins.ascii 2 2 tieTable).dom).dom.rows
        = [pigRow "Pig1" "ACTIVE" "50", pigRow "Pig2" "SOLD" "50"]
      ∧ (sortTable Builtins.ascii 2 2 (sortTable Builtins.ascii 2 2 tieTable).dom).dom.rows
        ≠ (sortTable Builtins.ascii 2 2 tieTable).dom.rows.reverse := by
  decide

/-- Rows that tie in column `k` are put in no other order by either comparator of the
column. -/
theorem compareRows_nonpos_of_tie {Num : Type} [LinearOrder Num] (env : Builtins Num)
    (isAscending : Bool) (k : Nat) (a b : Tr)
    (h : compareRows env false k a b = 0 ∧ compareRows env false k b a = 0) :
    compareRows env isAscending k a b ≤ 0 := by
  cases isAscending
  · exact le_of_eq h.1
  · rw [compareRows_swap]
    exact le_of_eq h.2

/-- C7 (amended): on a table of data rows, two consecutive `sortTable(k)` calls on the same
column give row sequences with the same rows (the second is a permutation of the first); the
second is the exact reverse of the first whenever the comparator of column `k` strictly
orders the rows, that is, no two distinct rows compare as equal in that column; and rows that
compare as equal keep their relative order in both results: every subsequence of the original
rows whose members tie pairwise in column `k` is a subsequence of the first and of the second
result. -/
theorem sortTable_twice_reverse {Num : Type} [LinearOrder Num] (env : Builtins Num) (k : Nat)
    (d : Dom) (th : Th)
    (hdata : ∀ row ∈ d.rows, row.hasColspan = false)
    (hth : d.headers[k]? = some th) (hicon : th.icon.isSome = true) :
    (sortTable env k k (sortTable env k k d).dom).dom.rows.Perm (sortTable env k k d).dom.rows
      ∧ (StrictlyOrders env k d.rows →
          (sortTable env k k (sortTable env k k d).dom).dom.rows
            = (sortTable env k k d).dom.rows.reverse)
      ∧ (∀ c : List Tr, List.Sublist c d.rows →
          c.Pairwise (fun a b =>
            compareRows env false k a b = 0 ∧ compareRows env false k b a = 0) →
          List.Sublist c (sortTable env k k d).dom.rows
            ∧ List.Sublist c (sortTable env k k (sortTable env k k d).dom).dom.rows) := by
  obtain ⟨h1, h2⟩ := sortTable_twice_rows env k d th hdata hth hicon
  refine ⟨sortTable_rows_perm env k k _, ?_, ?_⟩
  · rintro ⟨htot, htr, hanti⟩
    rw [h2, h1]
    unfold arraySort
    cases hs : th.sortAsc
    · exact insertionSort_converse (fun a b => compareRows env false k a b ≤ 0)
        (fun a b => compareRows env (!false) k a b ≤ 0)
        (fun a b => by simp only [Bool.not_false, compareRows_swap]) d.rows htot htr hanti
    · exact insertionSort_converse (fun a b => compareRows env true k a b ≤ 0)
        (fun a b => compareRows env (!true) k a b ≤ 0)
        (fun a b => by simp only [Bool.not_true, compareRows_swap]) d.rows
        (fun a ha b hb => by
          simp only [compareRows_swap]
          exact (htot a ha b hb).symm)
        (fun a ha b hb c hc hab hbc => by
          simp only [compareRows_swap] at hab hbc ⊢
          exact htr c hc b hb a ha hbc hab)
        (fun a ha b hb hab hba => by
          simp only [compareRows_swap] at hab hba
          exact hanti a ha b hb hba hab)
  · intro c hc htie
    have hfirst : List.Sublist c (sortTable env k k d).dom.rows := by
      rw [h1]
      exact List.sublist_insertionSort
        (htie.imp (fun {a b} h => compareRows_nonpos_of_tie env th.sortAsc k a b h)) hc
    refine ⟨hfirst, ?_⟩
    rw [h2, ← h1]
    exact List.sublist_insertionSort
      (htie.imp (fun {a b} h => compareRows_nonpos_of_tie env (!th.sortAsc) k a b h)) hfirst

/-- C7 (amended), applied to the combined scenario, whose three weights are distinct: the
ascending order `Pig2`, `Pig3`, `Pig1` of the first call is reversed by the second. -/
theorem sortTable_twice_reverse_witness :
    (sortTable Builtins.ascii 2 2 comboTable).dom.rows
        = [pigRow "Pig2" "ACTIVE" "30", pigRow "Pig3" "SOLD" "40", pigRow "Pig1" "ACTIVE" "50"]
      ∧ (sortTable Builtins.ascii 2 2 (sortTable Builtins.ascii 2 2 comboTable).dom).dom.rows
        = [pigRow "Pig1" "ACTIVE" "50", pigRow "Pig3" "SOLD" "40", pigRow "Pig2" "ACTIVE" "30"]
      ∧ StrictlyOrders Builtins.ascii 2 comboTable.rows
      ∧ (sortTable Builtins.ascii 2 2 (sortTable Builtins.ascii 2 2 comboTable).dom).dom.rows.Perm
          (sortTable Builtins.ascii 2 2 comboTable).dom.rows
      ∧ (StrictlyOrders Builtins.ascii 2 comboTable.rows →
          (sortTable Builtins.ascii 2 2 (sortTable Builtins.ascii 2 2 comboTable).dom).dom.rows
            = (sortTable Builtins.ascii 2 2 comboTable).dom.rows.reverse)
      ∧ (∀ c : List Tr, List.Sublist c comboTable.rows →
          c.Pairwise (fun a b =>
            compareRows Builtins.ascii false 2 a b = 0
              ∧ compareRows Builtins.ascii false 2 b a = 0) →
          List.Sublist c (sortTable Builtins.ascii 2 2 comboTable).dom.rows
            ∧ List.Sublist c
              (sortTable Builtins.ascii 2 2 (sortTable Builtins.ascii 2 2 comboTable).dom).dom.rows) :=
  ⟨by decide, by decide, ⟨by decide, by decide, by decide⟩,
    sortTable_twice_reverse Builtins.ascii 2 comboTable
      { sortAsc := false, sortDesc := false, icon := some "bi bi-chevron-expand sort-icon" }
      (by decide) (by decide) (by decide)⟩

/-! ## Search: the empty state -/

theorem noResultsCount_map_searchRow {Num : Type} (env : Builtins Num) (sv : String)
    (rows : List Tr) : noResultsCount (rows.map (searchRow env sv)) = noResultsCount rows := by
  unfold noResultsCount
  induction rows with
  | nil => rfl
  | cons x xs ih =>
    simp only [List.map_cons, List.filter_cons, searchRow_id]
    split_ifs <;> simp [ih]

theorem hasNoResults_eq_false_iff (rows : List Tr) :
    hasNoResults rows = false ↔ noResultsCount rows = 0 := by
  unfold hasNoResults noResultsCount
  induction rows with
  | nil => simp
  | cons x xs ih =>
    simp only [List.any_cons, List.filter_cons, Bool.or_eq_false_iff]
    by_cases hx : (x.id == "noResults") = true
    · simp [hx]
    · simp [hx, ih]

theorem noResultsCount_eraseP (rows : List Tr) :
    noResultsCount (rows.eraseP (fun row => row.id == "noResults")) = noResultsCount rows - 1 := by
  induction rows with
  | nil => rfl
  | cons x xs ih =>
    by_cases hx : (x.id == "noResults") = true
    · simp [List.eraseP_cons, noResultsCount, List.filter_cons, hx]
    · have hx' : (x.id == "noResults") = false := by simpa using hx
      unfold noResultsCount at ih ⊢
      rw [List.eraseP_cons]
      simp only [hx', cond_false, List.filter_cons, Bool.false_eq_true, if_false]
      exact ih

theorem visibleCount_eq_zero_iff {Num : Type} (env : Builtins Num) (q : String) (rows : List Tr) :
    visibleCount env (env.toLowerCase q) rows = 0
      ↔ ∀ row ∈ rows, row.hasColspan = false → searchMatches env q row = false := by
  unfold visibleCount searchMatches
  rw [List.length_eq_zero, List.filter_eq_nil_iff]
  constructor
  · intro h row hrow hdata
    have := h row hrow
    simpa [hdata] using this
  · intro h row hrow
    cases hc : row.hasColspan
    · simp [h row hrow hc]
    · simp

/-- The rows after a search with a non-empty query that no data row matches. -/
theorem pigSearchKeyup_rows_of_no_match {Num : Type} (env : Builtins Num) (q : String) (d : Dom)
    (hq : q ≠ "")
    (hno : ∀ row ∈ d.rows, row.hasColspan = false → searchMatches env q row = false) :
    (pigSearchKeyup env q d).rows
      = if hasNoResults d.rows then d.rows.map (searchRow env (env.toLowerCase q))
        else d.rows.map (searchRow env (env.toLowerCase q))
          ++ [noResultsRow (env.toLowerCase q)] := by
  have hsv : env.toLowerCase q ≠ "" := fun h => hq ((env.toLowerCase_eq_empty q).1 h)
  have hcount := (visibleCount_eq_zero_iff env q d.rows).2 hno
  have hany : hasNoResults (d.rows.map (searchRow env (env.toLowerCase q)))
      = hasNoResults d.rows := by
    unfold hasNoResults
    rw [List.any_map]
    congr 1
    funext row
    simp [searchRow_id]
  unfold pigSearchKeyup
  simp only [hcount, hsv, hany, ne_eq, not_false_eq_true, and_self, if_true]
  cases hasNoResults d.rows <;> simp

/-- The rows after a search with an empty query or with a matching data row. -/
theorem pigSearchKeyup_rows_of_match {Num : Type} (env : Builtins Num) (q : String) (d : Dom)
    (h : q = "" ∨ ∃ row ∈ d.rows, row.hasColspan = false ∧ searchMatches env q row = true) :
    (pigSearchKeyup env q d).rows
      = (d.rows.map (searchRow env (env.toLowerCase q))).eraseP
          (fun row => row.id == "noResults") := by
  have hcond : ¬ (visibleCount env (env.toLowerCase q) d.rows = 0 ∧ env.toLowerCase q ≠ "") := by
    rintro ⟨hcount, hsv⟩
    rcases h with h | ⟨row, hrow, hdata, hm⟩
    · exact hsv ((env.toLowerCase_eq_empty q).2 h)
    · have := (visibleCount_eq_zero_iff env q d.rows).1 hcount row hrow hdata
      rw [hm] at this
      exact Bool.noConfusion this
  unfold pigSearchKeyup
  simp only [hcond, if_false]

/-- C9: on a table in which at most one row carries the id `noResults` (ids are unique in a
document), if `q` is non-empty and no data row matches it, then after the search handler every
data row is hidden, so that no data row is among the visible rows, and exactly one row with id
`noResults` is present, which on a table without one is the placeholder appended after the
rows; and if `q` is empty or some data row matches, no row with id `noResults` is present after
the handler. -/
theorem pigSearchKeyup_noResults {Num : Type} (env : Builtins Num) (q : String) (d : Dom)
    (hid : noResultsCount d.rows ≤ 1) :
    ((q ≠ "" ∧ ∀ row ∈ d.rows, row.hasColspan = false → searchMatches env q row = false) →
        (∀ row ∈ (pigSearchKeyup env q d).rows, row.hasColspan = false → row.display = "none")
          ∧ (visibleRows (pigSearchKeyup env q d)).filter Tr.isData = []
          ∧ noResultsCount (pigSearchKeyup env q d).rows = 1
          ∧ (hasNoResults d.rows = false →
              (pigSearchKeyup env q d).rows
                = d.rows.map (searchRow env (env.toLowerCase q))
                  ++ [noResultsRow (env.toLowerCase q)]))
      ∧ ((q = "" ∨ ∃ row ∈ d.rows, row.hasColspan = false ∧ searchMatches env q row = true) →
          noResultsCount (pigSearchKeyup env q d).rows = 0) := by
  constructor
  · rintro ⟨hq, hno⟩
    have hrows := pigSearchKeyup_rows_of_no_match env q d hq hno
    have hhidden : ∀ row ∈ (pigSearchKeyup env q d).rows, row.hasColspan = false →
        row.display = "none" := by
      intro row hrow hdata
      rcases mem_pigSearchKeyup_rows env q d row hrow with rfl | ⟨r, hr, rfl⟩
      · simp [noResultsRow_hasColspan] at hdata
      · rw [searchRow_hasColspan] at hdata
        rw [searchRow_of_isData env q r hdata, hno r hr hdata]
        rfl
    refine ⟨hhidden, ?_, ?_, ?_⟩
    · unfold visibleRows
      rw [List.filter_filter, List.filter_eq_nil_iff]
      intro row hrow
      cases hc : row.hasColspan
      · simp [Tr.isVisible, hhidden row hrow hc]
      · simp [Tr.isData, hc]
    · rw [hrows]
      cases hn : hasNoResults d.rows
      · have h0 := (hasNoResults_eq_false_iff d.rows).1 hn
        have e : noResultsCount (d.rows.map (searchRow env (env.toLowerCase q))
            ++ [noResultsRow (env.toLowerCase q)])
            = noResultsCount (d.rows.map (searchRow env (env.toLowerCase q))) + 1 := by
          simp [noResultsCount, noResultsRow_id]
        simp only [Bool.false_eq_true, if_false]
        rw [e, noResultsCount_map_searchRow, h0]
      · have hne : noResultsCount d.rows ≠ 0 := fun h0 => by
          rw [← hasNoResults_eq_false_iff, hn] at h0
          exact Bool.noConfusion h0
        simp only [if_true]
        rw [noResultsCount_map_searchRow]
        omega
    · intro hn
      rw [hrows, hn]
      simp
  · intro h
    rw [pigSearchKeyup_rows_of_match env q d h, noResultsCount_eraseP,
      noResultsCount_map_searchRow]
    omega

/-- C9, applied to the three rows of the combined scenario, none of which contains `zzz`: after
a search for `zzz` all three rows are hidden and the placeholder follows them. -/
theorem pigSearchKeyup_noResults_witness :
    noResultsCount comboTable.rows ≤ 1
      ∧ (pigSearchKeyup Builtins.ascii "zzz" comboTable).rows
        = comboTable.rows.map (fun row => row.withVisible false) ++ [noResultsRow "zzz"]
      ∧ visibleRows (pigSearchKeyup Builtins.ascii "zzz" comboTable) = [noResultsRow "zzz"]
      ∧ noResultsCount (pigSearchKeyup Builtins.ascii "" (pigSearchKeyup Builtins.ascii "zzz" comboTable)).rows
        = 0
      ∧ (("zzz" ≠ "" ∧ ∀ row ∈ comboTable.rows, row.hasColspan = false →
            searchMatches Builtins.ascii "zzz" row = false) →
          (∀ row ∈ (pigSearchKeyup Builtins.ascii "zzz" comboTable).rows,
              row.hasColspan = false → row.display = "none")
            ∧ (visibleRows (pigSearchKeyup Builtins.ascii "zzz" comboTable)).filter Tr.isData = []
            ∧ noResultsCount (pigSearchKeyup Builtins.ascii "zzz" comboTable).rows = 1
            ∧ (hasNoResults comboTable.rows = false →
                (pigSearchKeyup Builtins.ascii "zzz" comboTable).rows
                  = comboTable.rows.map (searchRow Builtins.ascii (Builtins.ascii.toLowerCase "zzz"))
                    ++ [noResultsRow (Builtins.ascii.toLowerCase "zzz")]))
      ∧ (("zzz" = "" ∨ ∃ row ∈ comboTable.rows,
            row.hasColspan = false ∧ searchMatches Builtins.ascii "zzz" row = true) →
          noResultsCount (pigSearchKeyup Builtins.ascii "zzz" comboTable).rows = 0) :=
  ⟨by decide, by decide, by decide, by decide,
    pigSearchKeyup_noResults Builtins.ascii "zzz" comboTable (by decide)⟩

/-! ## Search: the frame -/

theorem searchRow_withVisible {Num : Type} (env : Builtins Num) (sv : String) (row : Tr)
    (b : Bool) : (searchRow env sv row).withVisible b = row.withVisible b := by
  unfold searchRow
  dsimp only
  split_ifs <;> rfl

/-- C10: the search handler leaves every header, hence the active sort column and direction,
as it was, and it does not reorder rows: apart from their visibility, the rows after the call
are a subsequence of the rows before it followed by the placeholder (the only row the handler
can add), and the pig rows are the same rows in the same order. So any two rows present
before and after the call keep their relative order. -/
theorem pigSearchKeyup_frame {Num : Type} (env : Builtins Num) (q : String) (d : Dom) :
    (pigSearchKeyup env q d).headers = d.headers
      ∧ (∀ k, activeSort (pigSearchKeyup env q d) k = activeSort d k)
      ∧ List.Sublist ((pigSearchKeyup env q d).rows.map (fun row => row.withVisible true))
          ((d.rows ++ [noResultsRow (env.toLowerCase q)]).map (fun row => row.withVisible true))
      ∧ (pigRows (pigSearchKeyup env q d).rows).map (fun row => row.withVisible true)
          = (pigRows d.rows).map (fun row => row.withVisible true)
      ∧ List.Sublist ((visibleRows (pigSearchKeyup env q d)).map (fun row => row.withVisible true))
          ((d.rows ++ [noResultsRow (env.toLowerCase q)]).map (fun row => row.withVisible true)) := by
  have hmap : (d.rows.map (searchRow env (env.toLowerCase q))).map (fun row => row.withVisible true)
      = d.rows.map (fun row => row.withVisible true) := by
    rw [List.map_map]
    exact List.map_congr_left (fun row _ => searchRow_withVisible env _ row true)
  have hsub : List.Sublist ((pigSearchKeyup env q d).rows.map (fun row => row.withVisible true))
      ((d.rows ++ [noResultsRow (env.toLowerCase q)]).map (fun row => row.withVisible true)) := by
    rcases pigSearchKeyup_rows env q d with h | h | h <;> rw [h]
    · rw [List.map_append, List.map_append, hmap]
    · rw [List.map_append, hmap]
      exact List.sublist_append_left _ _
    · rw [List.map_append, ← hmap]
      exact (List.Sublist.map _ (List.eraseP_sublist _)).trans (List.sublist_append_left _ _)
  refine ⟨pigSearchKeyup_headers env q d, ?_, hsub, ?_, ?_⟩
  · intro k
    unfold activeSort
    rw [pigSearchKeyup_headers]
  · rw [pigRows_pigSearchKeyup, List.map_map]
    rfl
  · exact (List.Sublist.map _ (List.filter_sublist _)).trans hsub

/-! ## Sequences of operations: what the result depends on -/

/-- C11 (as the claim states it, refuted): two pairs of sequences that end with the same search
query, the same status filter and the same sort markers, yet show different row sequences.
Status `ACTIVE` then search `pig` shows all three rows of the combined scenario, search `pig`
then status `ACTIVE` only the two ACTIVE rows. A sort on the weight column alone leaves two
pigs of equal weight in their original order, the same sort after a sort on the name column
leaves them in name order. -/
theorem same_slots_different_rows :
    (currentQuery [.status "ACTIVE", .search "pig"] = currentQuery [.search "pig", .status "ACTIVE"]
      ∧ currentStatus [.status "ACTIVE", .search "pig"]
        = currentStatus [.search "pig", .status "ACTIVE"]
      ∧ (runOperations Builtins.ascii [.status "ACTIVE", .search "pig"] comboTable).headers
        = (runOperations Builtins.ascii [.search "pig", .status "ACTIVE"] comboTable).headers
      ∧ visibleRows (runOperations Builtins.ascii [.status "ACTIVE", .search "pig"] comboTable)
        = [pigRow "Pig1" "ACTIVE" "50", pigRow "Pig2" "ACTIVE" "30", pigRow "Pig3" "SOLD" "40"]
      ∧ visibleRows (runOperations Builtins.ascii [.search "pig", .status "ACTIVE"] comboTable)
        = [pigRow "Pig1" "ACTIVE" "50", pigRow "Pig2" "ACTIVE" "30"])
    ∧ (currentQuery [.sort 2] = currentQuery [.sort 0, .sort 2]
      ∧ currentStatus [.sort 2] = currentStatus [.sort 0, .sort 2]
      ∧ (runOperations Builtins.ascii [.sort 2] sameWeightTable).headers
        = (runOperations Builtins.ascii [.sort 0, .sort 2] sameWeightTable).headers
      ∧ activeSort (runOperations Builtins.ascii [.sort 2] sameWeightTable) 2 = some .ascending
      ∧ visibleRows (runOperations Builtins.ascii [.sort 2] sameWeightTable)
        = [pigRow "Pig2" "ACTIVE" "50", pigRow "Pig1" "ACTIVE" "50"]
      ∧ visibleRows (runOperations Builtins.ascii [.sort 0, .sort 2] sameWeightTable)
        = [pigRow "Pig1" "ACTIVE" "50", pigRow "Pig2" "ACTIVE" "50"]) := by
  decide

theorem runOperations_append_singleton {Num : Type} [LinearOrder Num] (env : Builtins Num)
    (ops : List Operation) (op : Operation) (d : Dom) :
    runOperations env (ops ++ [op]) d = op.apply env (runOperations env ops d) := by
  simp [runOperations, List.foldl_append]

theorem lastFilter_append_singleton (ops : List Operation) (op : Operation) :
    lastFilter (ops ++ [op]) = if op.isFilter then some op else lastFilter ops := by
  unfold lastFilter
  rw [List.filter_append]
  cases h : op.isFilter <;> simp [List.filter_cons, h]

/-- Every operation keeps the pig rows, up to their visibility and their order. -/
theorem pigRows_apply_perm {Num : Type} [LinearOrder Num] (env : Builtins Num) (op : Operation)
    (d : Dom) :
    ((pigRows (op.apply env d).rows).map (fun row => row.withVisible true)).Perm
      ((pigRows d.rows).map (fun row => row.withVisible true)) := by
  cases op with
  | search q =>
    simp only [Operation.apply]
    rw [pigRows_pigSearchKeyup, List.map_map]
    exact List.Perm.refl _
  | status s =>
    simp only [Operation.apply]
    rw [filterByStatus_rows, pigRows_map_withVisible, List.map_map]
    exact List.Perm.refl _
  | sort k =>
    simp only [Operation.apply]
    exact ((sortTable_rows_perm env k k d).filter _).map _

theorem pigRows_runOperations_perm {Num : Type} [LinearOrder Num] (env : Builtins Num)
    (ops : List Operation) (d : Dom) :
    ((pigRows (runOperations env ops d).rows).map (fun row => row.withVisible true)).Perm
      ((pigRows d.rows).map (fun row => row.withVisible true)) := by
  induction ops using List.reverseRecOn with
  | nil => exact List.Perm.refl _
  | append_singleton ops op ih =>
    rw [runOperations_append_singleton]
    exact (pigRows_apply_perm env op _).trans ih

theorem filterPredicate_withVisible {Num : Type} (env : Builtins Num) (f : Operation) (row : Tr)
    (b : Bool) : filterPredicate env f (row.withVisible b) = filterPredicate env f row := by
  cases f <;> rfl

/-- Right after a filter operation a pig row is visible exactly when it satisfies the
predicate of that operation. -/
theorem isVisible_after_filter {Num : Type} [LinearOrder Num] (env : Builtins Num)
    (f : Operation) (hf : f.isFilter = true) (d : Dom) :
    ∀ row ∈ pigRows (f.apply env d).rows, row.isVisible = filterPredicate env f row := by
  intro row hrow
  cases f with
  | search q =>
    simp only [Operation.apply] at hrow
    rw [pigRows_pigSearchKeyup, List.mem_map] at hrow
    obtain ⟨r, _, rfl⟩ := hrow
    rw [withVisible_isVisible, filterPredicate_withVisible]
    rfl
  | status s =>
    simp only [Operation.apply] at hrow
    rw [filterByStatus_rows, pigRows_map_withVisible, List.mem_map] at hrow
    obtain ⟨r, _, rfl⟩ := hrow
    rw [withVisible_isVisible, filterPredicate_withVisible]
    rfl
  | sort k => exact absurd hf (by simp [Operation.isFilter])

theorem isVisible_after_runOperations {Num : Type} [LinearOrder Num] (env : Builtins Num)
    (ops : List Operation) (f : Operation) (d : Dom) (h : lastFilter ops = some f) :
    ∀ row ∈ pigRows (runOperations env ops d).rows,
      row.isVisible = filterPredicate env f row := by
  induction ops using List.reverseRecOn with
  | nil => simp [lastFilter] at h
  | append_singleton ops op ih =>
    rw [lastFilter_append_singleton] at h
    rw [runOperations_append_singleton]
    cases hop : op.isFilter
    · simp only [hop, Bool.false_eq_true, if_false] at h
      cases op with
      | sort k =>
        intro row hrow
        simp only [Operation.apply] at hrow
        exact ih h row (((sortTable_rows_perm env k k _).filter _).subset hrow)
      | search q => simp [Operation.isFilter] at hop
      | status s => simp [Operation.isFilter] at hop
    · simp only [hop, if_true, Option.some.injEq] at h
      subst h
      exact isVisible_after_filter env op hop _

theorem withVisible_true_of_isVisible (row : Tr) (h : row.isVisible = true) :
    row.withVisible true = row := by
  obtain ⟨id, children, display⟩ := row
  simp only [Tr.isVisible, beq_iff_eq] at h
  simp [Tr.withVisible, h]

/-- The visible pig rows after a sequence of operations, in terms of the original rows. -/
theorem visible_pigRows_runOperations {Num : Type} [LinearOrder Num] (env : Builtins Num)
    (ops : List Operation) (f : Operation) (d : Dom) (h : lastFilter ops = some f) :
    (pigRows (visibleRows (runOperations env ops d))).Perm
      (((pigRows d.rows).filter (filterPredicate env f)).map
        (fun row => row.withVisible true)) := by
  have e1 : pigRows (visibleRows (runOperations env ops d))
      = (pigRows (runOperations env ops d).rows).filter (filterPredicate env f) := by
    unfold visibleRows pigRows
    rw [List.filter_filter, List.filter_filter]
    apply List.filter_congr
    intro row hrow
    by_cases hp : (row.isData && row.id != "noResults") = true
    · have hv := isVisible_after_runOperations env ops f d h row
        (by unfold pigRows; exact List.mem_filter.2 ⟨hrow, hp⟩)
      rw [hv, hp]
      simp
    · have hp' : (row.isData && row.id != "noResults") = false := by simpa using hp
      rw [hp']
      simp
  have hc : (filterPredicate env f ∘ fun row => row.withVisible true)
      = filterPredicate env f := by
    funext r
    exact filterPredicate_withVisible env f r true
  have e2 : (pigRows (runOperations env ops d).rows).filter (filterPredicate env f)
      = (((pigRows (runOperations env ops d).rows).map (fun row => row.withVisible true)).filter
          (filterPredicate env f)) := by
    have hvis : ∀ row ∈ (pigRows (runOperations env ops d).rows).filter (filterPredicate env f),
        row.withVisible true = row := by
      intro row hrow
      rw [← e1] at hrow
      apply withVisible_true_of_isVisible
      unfold pigRows visibleRows at hrow
      exact (List.mem_filter.1 (List.mem_filter.1 hrow).1).2
    rw [List.filter_map, hc]
    conv_lhs => rw [← List.map_id ((pigRows (runOperations env ops d).rows).filter
      (filterPredicate env f))]
    exact List.map_congr_left (fun row hrow => (hvis row hrow).symm)
  rw [e1, e2]
  have hperm := (pigRows_runOperations_perm env ops d).filter (filterPredicate env f)
  refine hperm.trans ?_
  rw [List.filter_map, hc]

/-- C11 (amended): which pig rows are visible after a sequence of operations is decided by the
last search or status-filter operation of the sequence alone: for two sequences with the same
last filter operation `f` the visible pig rows are the same rows, namely the original pig rows
that satisfy the predicate of `f`, whatever the earlier filter operations and the sort calls
were. Only their order depends on the rest of the sequence. -/
theorem visible_rows_by_last_filter {Num : Type} [LinearOrder Num] (env : Builtins Num)
    (d : Dom) (ops₁ ops₂ : List Operation) (f : Operation)
    (h₁ : lastFilter ops₁ = some f) (h₂ : lastFilter ops₂ = some f) :
    (pigRows (visibleRows (runOperations env ops₁ d))).Perm
        (pigRows (visibleRows (runOperations env ops₂ d)))
      ∧ (pigRows (visibleRows (runOperations env ops₁ d))).Perm
        (((pigRows d.rows).filter (filterPredicate env f)).map (fun row => row.withVisible true))
      ∧ (∀ row ∈ pigRows (runOperations env ops₁ d).rows,
          row.isVisible = filterPredicate env f row) :=
  ⟨(visible_pigRows_runOperations env ops₁ f d h₁).trans
      (visible_pigRows_runOperations env ops₂ f d h₂).symm,
    visible_pigRows_runOperations env ops₁ f d h₁,
    isVisible_after_runOperations env ops₁ f d h₁⟩

/-- C11 (amended), applied to the combined scenario and two sequences that both end their
filter operations with a search for `pig1`: both show `Pig1` alone. -/
theorem visible_rows_by_last_filter_witness :
    lastFilter [.status "SOLD", .search "pig1", .sort 2] = some (.search "pig1")
      ∧ lastFilter [.sort 0, .search "pig1"] = some (.search "pig1")
      ∧ visibleRows (runOperations Builtins.ascii [.status "SOLD", .search "pig1", .sort 2] comboTable)
        = [pigRow "Pig1" "ACTIVE" "50"]
      ∧ visibleRows (runOperations Builtins.ascii [.sort 0, .search "pig1"] comboTable)
        = [pigRow "Pig1" "ACTIVE" "50"]
      ∧ (pigRows (visibleRows
            (runOperations Builtins.ascii [.status "SOLD", .search "pig1", .sort 2] comboTable))).Perm
          (pigRows (visibleRows (runOperations Builtins.ascii [.sort 0, .search "pig1"] comboTable)))
      ∧ (pigRows (visibleRows
            (runOperations Builtins.ascii [.status "SOLD", .search "pig1", .sort 2] comboTable))).Perm
          (((pigRows comboTable.rows).filter
            (filterPredicate Builtins.ascii (.search "pig1"))).map (fun row => row.withVisible true))
      ∧ (∀ row ∈ pigRows
            (runOperations Builtins.ascii [.status "SOLD", .search "pig1", .sort 2] comboTable).rows,
          row.isVisible = filterPredicate Builtins.ascii (.search "pig1") row) :=
  ⟨by decide, by decide, by decide, by decide,
    visible_rows_by_last_filter Builtins.ascii comboTable
      [.status "SOLD", .search "pig1", .sort 2] [.sort 0, .search "pig1"] (.search "pig1")
      (by decide) (by decide)⟩

/-! ## Search: the message of the placeholder -/

/-- When an element with id `noResults` exists, a search that matches nothing leaves every
row with that id as it was: the message is not rewritten. -/
theorem pigSearchKeyup_keeps_noResults {Num : Type} (env : Builtins Num) (q : String) (d : Dom)
    (hq : q ≠ "")
    (hno : ∀ row ∈ d.rows, row.hasColspan = false → searchMatches env q row = false)
    (hhas : hasNoResults d.rows = true) :
    (pigSearchKeyup env q d).rows = d.rows.map (searchRow env (env.toLowerCase q)) := by
  rw [pigSearchKeyup_rows_of_no_match env q d hq hno, hhas]
  simp

set_option maxRecDepth 20000 in
/-- C12 (the code at the failing input): on the combined scenario a search for `z` matches
nothing and creates the placeholder with the message for `z`; a following search for `zz`
matches nothing either and leaves that placeholder in place, so that after the search for `zz`
the message still quotes `z` and does not quote the current query `zz`. -/
theorem noResults_message_stale :
    (pigSearchKeyup Builtins.ascii "zz" (pigSearchKeyup Builtins.ascii "z" comboTable)).rows.filter
        (fun row => row.id == "noResults") = [noResultsRow "z"]
      ∧ includes (noResultsRow "z").textContent "No pigs found matching \"z\"" = true
      ∧ includes (noResultsRow "z").textContent "No pigs found matching \"zz\"" = false := by
  decide

/-! ## `formatNumber` -/

theorem insertCommas_erase_commas (prev : Option Char) (cs : List Char) (h : ',' ∉ cs) :
    (insertCommas prev cs).filter (fun c => c != ',') = cs := by
  induction cs generalizing prev with
  | nil => rfl
  | cons c cs ih =>
    have hc : c ≠ ',' := fun e => h (e ▸ List.mem_cons_self _ _)
    have hcs : ',' ∉ cs := fun e => h (List.mem_cons_of_mem _ e)
    rw [insertCommas]
    split_ifs <;> simp [hc, ih _ hcs]

/-- C13 (the code at the failing input): for `num = 1234.5678`, whose `toString()` is
`1234.5678`, `formatNumber` returns `1,234.5,678`, with a comma inside the fractional digits;
`0.0001` becomes `0.0,001`. On integers the commas are the thousands separators
(`1234567` gives `1,234,567`, `-1234` gives `-1,234`, `123` is unchanged), and on every string
without a comma removing the commas of the result gives the string back. -/
theorem formatNumber_fraction_comma :
    formatNumber "1234.5678" = "1,234.5,678"
      ∧ formatNumber "0.0001" = "0.0,001"
      ∧ formatNumber "1234567" = "1,234,567"
      ∧ formatNumber "-1234" = "-1,234"
      ∧ formatNumber "123" = "123"
      ∧ formatNumber "1234.5" = "1,234.5"
      ∧ (∀ s : String, ',' ∉ s.data →
          (formatNumber s).data.filter (fun c => c != ',') = s.data) :=
  ⟨by decide, by decide, by decide, by decide, by decide, by decide,
    fun s h => insertCommas_erase_commas none s.data h⟩

/-! ## Sequences of `sortTable` calls -/

/-- No call of `sortTable` gives a header a sort icon or takes one away. -/
theorem sortTable_icon_isSome {Num : Type} [LinearOrder Num] (env : Builtins Num) (k h : Nat)
    (d : Dom) (j : Nat) :
    ((sortTable env k h d).dom.headers[j]?).map (fun th => th.icon.isSome)
      = (d.headers[j]?).map (fun th => th.icon.isSome) := by
  unfold sortTable
  simp only
  split_ifs
  · rfl
  · cases hh : d.headers[h]? with
    | none => rfl
    | some th =>
      cases hi : th.icon with
      | none =>
        simp only [hi, List.getElem?_modify, List.getElem?_map, Option.map_eq_map]
        cases hj : d.headers[j]? with
        | none => rfl
        | some x =>
          by_cases e : h = j
          · cases hs : th.sortAsc <;> simp [e, addSortClass, clearSort, hs]
          · simp [e, clearSort]
      | some ic =>
        simp only [hi, List.getElem?_modify, List.getElem?_map, Option.map_eq_map]
        cases hj : d.headers[j]? with
        | none => rfl
        | some x =>
          by_cases e : h = j
          · subst e
            rw [hh] at hj
            cases hj
            simp [hi]
          · simp [e, clearSort]

/-- A table of data rows whose header `k` has a sort icon stays one under every sequence of
`sortTable` calls. -/
theorem sortCalls_invariant {Num : Type} [LinearOrder Num] (env : Builtins Num) (ks : List Nat)
    (k : Nat) (d : Dom)
    (hdata : ∀ row ∈ d.rows, row.hasColspan = false)
    (hicon : ∃ th, d.headers[k]? = some th ∧ th.icon.isSome = true) :
    (∀ row ∈ (runOperations env (ks.map Operation.sort) d).rows, row.hasColspan = false)
      ∧ ∃ th, (runOperations env (ks.map Operation.sort) d).headers[k]? = some th
        ∧ th.icon.isSome = true := by
  induction ks generalizing d with
  | nil => exact ⟨hdata, hicon⟩
  | cons a ks ih =>
    have hstep : runOperations env ((a :: ks).map Operation.sort) d
        = runOperations env (ks.map Operation.sort) (sortTable env a a d).dom := by
      simp [runOperations, Operation.apply]
    rw [hstep]
    apply ih
    · intro row hrow
      exact hdata row ((sortTable_rows_perm env a a d).subset hrow)
    · obtain ⟨th, hth, hi⟩ := hicon
      have h := sortTable_icon_isSome env a a d k
      rw [hth] at h
      cases hk : (sortTable env a a d).dom.headers[k]? with
      | none => simp [hk] at h
      | some th' =>
        refine ⟨th', rfl, ?_⟩
        simpa [hk, hi] using h

/-- C6 (as the claim states it, refuted): on the table of three pig rows followed by the
placeholder row, whose first row is a data row, the first call `sortTable(0)` sorts ascending
and moves the placeholder to the top; the second call `sortTable(0)`, made while column 0 is
active with direction ASCENDING, returns at the guard on the first row: it leaves the document
as it is and column 0 marked ASCENDING instead of sorting in DESCENDING direction. -/
theorem sortTable_second_call_blocked :
    placeholderLastTable = pigSearchKeyup Builtins.ascii "z" comboTable
      ∧ placeholderLastTable.rows.head?.map Tr.hasColspan = some false
      ∧ activeSort (sortTable Builtins.ascii 0 0 placeholderLastTable).dom 0 = some .ascending
      ∧ (sortTable Builtins.ascii 0 0 placeholderLastTable).dom.rows.head?
        = some (noResultsRow "z")
      ∧ sortTable Builtins.ascii 0 0 (sortTable Builtins.ascii 0 0 placeholderLastTable).dom
        = ⟨.normal, (sortTable Builtins.ascii 0 0 placeholderLastTable).dom⟩
      ∧ activeSort
          (sortTable Builtins.ascii 0 0 (sortTable Builtins.ascii 0 0 placeholderLastTable).dom).dom 0
        = some .ascending := by
  decide

/-- C6 (amended): on a table all of whose rows are data rows, after every sequence `ks` of
earlier `sortTable` calls, a call `sortTable(k)` (the header of column `k` having its sort
icon) sorts in a direction `dir` that is DESCENDING if and only if column `k` was the active
sort column with direction ASCENDING immediately before the call, and ASCENDING in every
other case; after the call the header of column `k`, and no other header, carries a sort
marker. In a state whose first row holds a `td[colspan]` cell a call returns at the guard
and leaves the row order and every marker as they were. -/
theorem sortTable_sequence_direction {Num : Type} [LinearOrder Num] (env : Builtins Num)
    (d : Dom) (ks : List Nat) (k : Nat)
    (hdata : ∀ row ∈ d.rows, row.hasColspan = false)
    (hicon : ∃ th, d.headers[k]? = some th ∧ th.icon.isSome = true) :
    (∃ dir : Direction,
        (dir = .descending ↔
            activeSort (runOperations env (ks.map Operation.sort) d) k = some .ascending)
          ∧ (dir = .ascending ↔
            activeSort (runOperations env (ks.map Operation.sort) d) k ≠ some .ascending)
          ∧ (sortTable env k k (runOperations env (ks.map Operation.sort) d)).completion = .normal
          ∧ (sortTable env k k (runOperations env (ks.map Operation.sort) d)).dom.rows
            = arraySort (comparator env dir k) (runOperations env (ks.map Operation.sort) d).rows
          ∧ activeSort (sortTable env k k (runOperations env (ks.map Operation.sort) d)).dom k
            = some dir
          ∧ (∀ i, i ≠ k →
            activeSort (sortTable env k k (runOperations env (ks.map Operation.sort) d)).dom i
              = none)
          ∧ (∀ i th',
            (sortTable env k k (runOperations env (ks.map Operation.sort) d)).dom.headers[i]?
                = some th' →
              ((th'.sortAsc = true ∨ th'.sortDesc = true) ↔ i = k)))
      ∧ (∀ (blocked : Dom) (h : Nat) (row : Tr), blocked.rows.head? = some row →
          row.hasColspan = true → sortTable env k h blocked = ⟨.normal, blocked⟩) := by
  obtain ⟨hdata', th, hth, hi⟩ := sortCalls_invariant env ks k d hdata hicon
  refine ⟨sortTable_direction env k _ th
    (fun row hrow => hdata' row (List.mem_of_mem_head? hrow)) hth hi, ?_⟩
  intro blocked h row hrow hcol
  unfold sortTable
  simp [hrow, hcol]

/-- C6 (amended), applied to the combined scenario: after the calls on columns 2, 2 and 0 a
call on column 2 sorts ascending again, and after the calls on columns 0 and 2 a call on
column 2 sorts descending. -/
theorem sortTable_sequence_direction_witness :
    (∀ row ∈ comboTable.rows, row.hasColspan = false)
      ∧ activeSort (runOperations Builtins.ascii [.sort 2, .sort 2] comboTable) 2
        = some .descending
      ∧ activeSort (runOperations Builtins.ascii [.sort 2, .sort 2, .sort 0, .sort 2] comboTable) 2
        = some .ascending
      ∧ activeSort (runOperations Builtins.ascii [.sort 0, .sort 2, .sort 2] comboTable) 2
        = some .descending
      ∧ (∃ dir : Direction,
        (dir = .descending ↔
            activeSort (runOperations Builtins.ascii ([2, 2, 0].map Operation.sort) comboTable) 2
              = some .ascending)
          ∧ (dir = .ascending ↔
            activeSort (runOperations Builtins.ascii ([2, 2, 0].map Operation.sort) comboTable) 2
              ≠ some .ascending)
          ∧ (sortTable Builtins.ascii 2 2
              (runOperations Builtins.ascii ([2, 2, 0].map Operation.sort) comboTable)).completion
            = .normal
          ∧ (sortTable Builtins.ascii 2 2
              (runOperations Builtins.ascii ([2, 2, 0].map Operation.sort) comboTable)).dom.rows
            = arraySort (comparator Builtins.ascii dir 2)
              (runOperations Builtins.ascii ([2, 2, 0].map Operation.sort) comboTable).rows
          ∧ activeSort (sortTable Builtins.ascii 2 2
              (runOperations Builtins.ascii ([2, 2, 0].map Operation.sort) comboTable)).dom 2
            = some dir
          ∧ (∀ i, i ≠ 2 →
            activeSort (sortTable Builtins.ascii 2 2
              (runOperations Builtins.ascii ([2, 2, 0].map Operation.sort) comboTable)).dom i
              = none)
          ∧ (∀ i th',
            (sortTable Builtins.ascii 2 2
              (runOperations Builtins.ascii ([2, 2, 0].map Operation.sort) comboTable)).dom.headers[i]?
                = some th' →
              ((th'.sortAsc = true ∨ th'.sortDesc = true) ↔ i = 2)))
      ∧ (∀ (blocked : Dom) (h : Nat) (row : Tr), blocked.rows.head? = some row →
          row.hasColspan = true → sortTable Builtins.ascii 2 h blocked = ⟨.normal, blocked⟩) :=
  ⟨by decide, by decide, by decide, by decide,
    sortTable_sequence_direction Builtins.ascii comboTable [2, 2, 0] 2 (by decide)
      ⟨{ sortAsc := false, sortDesc := false, icon := some "bi bi-chevron-expand sort-icon" },
        by decide, by decide⟩⟩

end PigFarm
